import Mathlib

/-!
Verification of the web3-functions SDK runtime against its specification.

The development shallowly embeds the parts of the source that the checked
claims are about:

* `src/lib/runtime/Web3FunctionRunner.ts` — result validation
  (`_validateResult`), user-args parsing (`parseUserArgs`), the report
  assembly and throttle flags of `run`, and the exit-code classification of
  `_runInSandbox`;
* `src/lib/Web3Function.ts` — the guest agent's storage facade and the
  storage-delta computation of `_onFunctionEvent` (via the flat-map
  specialisation of the `deep-object-diff` dependency).

JavaScript runtime values that travel over the JSON protocol are modelled by
the inductive type `Json` below.  Two deliberate model boundaries, both noted
where they matter: JSON numbers are modelled as integers (the claims under
check never exercise fractional values), and `String.length` counts scalar
values rather than UTF-16 units (all inputs exercised are ASCII).
-/

namespace W3F

/-- JSON values as delivered over the guest/supervisor protocol.  Numbers are
modelled as integers: no checked claim depends on fractional values. -/
inductive Json where
  | null : Json
  | bool (b : Bool) : Json
  | num (n : Int) : Json
  | str (s : String) : Json
  | arr (xs : List Json) : Json
  | obj (kvs : List (String × Json)) : Json

/-- JavaScript objects delivered by `JSON.parse` are key/value sequences in
insertion order. -/
abbrev JsObj := List (String × Json)

/-- Keys of a JavaScript object, in insertion order (`Object.keys`). -/
def objKeys (o : JsObj) : List String := o.map Prod.fst

/-- Property access `o[k]`: the first binding of `k`, if any. -/
def objGet (o : JsObj) (k : String) : Option Json :=
  (o.find? (fun kv => kv.1 = k)).map Prod.snd

/-- Property access that yields `Json.null` for an absent key.  JavaScript
distinguishes `undefined` from `null`, but every use below only feeds the
value to truthiness tests or string checks on which the two agree. -/
def objGetD (o : JsObj) (k : String) : Json := (objGet o k).getD Json.null

/-- Truthiness of a JSON value under JavaScript coercion rules. -/
def jsTruthy : Json → Bool
  | .null => false
  | .bool b => b
  | .num n => n != 0
  | .str s => s != ""
  | .arr _ => true
  | .obj _ => true

/-- Decimal digit characters for the canonical number rendering. -/
def digitChar : Nat → Char
  | 0 => '0' | 1 => '1' | 2 => '2' | 3 => '3' | 4 => '4'
  | 5 => '5' | 6 => '6' | 7 => '7' | 8 => '8' | 9 => '9'
  | _ => '*'

/-- Numeric value of a decimal digit character. -/
def digitVal (c : Char) : Nat := c.toNat - 48

/-- Decimal digits with explicit fuel (structural recursion, hence
kernel-computable); any fuel strictly above the argument suffices, since the
argument dominates its digit count. -/
def natDigitsAux : Nat → Nat → List Char
  | 0, _ => []
  | fuel + 1, n =>
      if n < 10 then [digitChar n]
      else natDigitsAux fuel (n / 10) ++ [digitChar (n % 10)]

/-- Decimal digits of a natural number, most significant first. -/
def natDigits (n : Nat) : List Char := natDigitsAux (n + 1) n

/-- Value of a most-significant-first digit string. -/
def digitsToNat (ds : List Char) : Nat :=
  ds.foldl (fun acc c => 10 * acc + digitVal c) 0

/-- Rendering of an integer, matching `JSON.stringify` on (safe) integers. -/
def intChars (n : Int) : List Char :=
  if n < 0 then '-' :: natDigits n.natAbs else natDigits n.natAbs

/-- Lowercase hexadecimal digit, as produced by `JSON.stringify` escapes. -/
def hexNibble : Nat → Char
  | 0 => '0' | 1 => '1' | 2 => '2' | 3 => '3' | 4 => '4'
  | 5 => '5' | 6 => '6' | 7 => '7' | 8 => '8' | 9 => '9'
  | 10 => 'a' | 11 => 'b' | 12 => 'c' | 13 => 'd' | 14 => 'e' | 15 => 'f'
  | _ => '*'

/-- Escape of a single character inside a JSON string literal, following
`JSON.stringify`: quote, backslash, the named control escapes, and `\u00XX`
for the remaining control characters. -/
def escapeChar (c : Char) : List Char :=
  if c = '"' then ['\\', '"']
  else if c = '\\' then ['\\', '\\']
  else if c = '\x08' then ['\\', 'b']
  else if c = '\x0c' then ['\\', 'f']
  else if c = '\n' then ['\\', 'n']
  else if c = '\r' then ['\\', 'r']
  else if c = '\t' then ['\\', 't']
  else if c.toNat < 32 then
    ['\\', 'u', '0', '0', hexNibble (c.toNat / 16), hexNibble (c.toNat % 16)]
  else [c]

/-- Escape of a character sequence inside a JSON string literal. -/
def escChars : List Char → List Char
  | [] => []
  | c :: cs => escapeChar c ++ escChars cs

/-- Quoted JSON string literal for a character sequence. -/
def quoteChars (cs : List Char) : List Char := '"' :: escChars cs ++ ['"']

mutual

/-- Characters of `JSON.stringify` applied to a JSON value. -/
def stringifyChars : Json → List Char
  | .null => ['n', 'u', 'l', 'l']
  | .bool b => if b then ['t', 'r', 'u', 'e'] else ['f', 'a', 'l', 's', 'e']
  | .num n => intChars n
  | .str s => quoteChars s.data
  | .arr xs => '[' :: arrChars xs ++ [']']
  | .obj kvs => '\x7b' :: objChars kvs ++ ['\x7d']
  termination_by structural j => j

/-- Comma-separated renderings of array elements. -/
def arrChars : List Json → List Char
  | [] => []
  | [x] => stringifyChars x
  | x :: y :: xs => stringifyChars x ++ ',' :: arrChars (y :: xs)
  termination_by structural l => l

/-- Comma-separated renderings of object entries. -/
def objChars : List (String × Json) → List Char
  | [] => []
  | [kv] => quoteChars kv.1.data ++ ':' :: stringifyChars kv.2
  | kv :: e :: xs =>
      quoteChars kv.1.data ++ ':' :: stringifyChars kv.2 ++ ',' :: objChars (e :: xs)
  termination_by structural l => l

end

/-- String produced by `JSON.stringify` for a JSON value. -/
def jsonStringify (j : Json) : String := ⟨stringifyChars j⟩

mutual

/-- Character rendering of `Array.prototype.toString`, joining with commas;
a `null` element renders as the empty string. -/
def arrToStringChars : List Json → List Char
  | [] => []
  | [x] => elemToStringChars x
  | x :: y :: xs => elemToStringChars x ++ ',' :: arrToStringChars (y :: xs)
  termination_by structural l => l

/-- Rendering of one array element under `Array.prototype.toString`. -/
def elemToStringChars : Json → List Char
  | .null => []
  | .bool b => if b then ['t', 'r', 'u', 'e'] else ['f', 'a', 'l', 's', 'e']
  | .num n => intChars n
  | .str s => s.data
  | .arr xs => arrToStringChars xs
  | .obj _ => "[object Object]".data
  termination_by structural j => j

end

/-- String coercion `String(v)` of a JSON value (as used by `RegExp.test`):
arrays join their elements with commas (`null` renders empty inside an
array), objects collapse to the generic object tag. -/
def jsToString : Json → String
  | .null => "null"
  | .bool b => if b then "true" else "false"
  | .num n => ⟨intChars n⟩
  | .str s => s
  | .arr xs => ⟨arrToStringChars xs⟩
  | .obj _ => "[object Object]"

/-! ## Result validator (`Web3FunctionRunner._validateResult`) -/

/-- Schema versions of the result shape. -/
inductive W3FVersion where
  | v1 : W3FVersion
  | v2 : W3FVersion
  deriving DecidableEq

/-- Check `data.length >= 10 && data.slice(0, 2) === "0x"` from
`_validateResult`.  The source applies it to a value that is only typed as a
string; under JavaScript semantics no other JSON value can satisfy both
conjuncts (for `null`, and for objects whose `length` coerces truthy, the
member access itself throws, which equally rejects the result — the model
collapses every such rejection into the validation error). -/
def isValidData : Json → Bool
  | .str s => decide (10 ≤ s.length) && decide (s.take 2 = "0x")
  | _ => false

/-- Lowercase hexadecimal digit test. -/
def isHexLowerDigit (c : Char) : Bool := c.isDigit || ('a' ≤ c && c ≤ 'f')

/-- Modelled from the spec: the `isAddress` helper of the external
`@ethersproject/address` dependency is not part of this repository; the spec
requires "`to` must be a syntactically valid 20-byte address".  The model
accepts `0x` followed by 40 lowercase hexadecimal digits (the checksummed
mixed-case form the dependency also accepts is not exercised by any input
below, where the dependency and the model agree). -/
def isAddress : Json → Bool
  | .str s =>
      decide (s.length = 42) && decide (s.take 2 = "0x")
        && (s.drop 2).data.all isHexLowerDigit
  | _ => false

/-- Test of `/^\d+$/` on a string: one or more decimal digits and nothing
else. -/
def isNumericString (s : String) : Bool :=
  s != "" && s.data.all Char.isDigit

/-- Property access on an arbitrary JSON value, as used by the destructuring
`const { to, data, value } = entry`: objects yield the bound value (absence
modelled as `null`, which agrees with `undefined` on every use site); other
values have no own properties.  Destructuring `null` throws in JavaScript;
the affected inputs are rejected either way. -/
def jsField (e : Json) (k : String) : Json :=
  match e with
  | .obj kvs => objGetD kvs k
  | _ => Json.null

/-- Validation error message: `Web3Function ${message}. Instead returned:
${JSON.stringify(result)}`. -/
def vErr (result : JsObj) (message : String) : String :=
  "Web3Function " ++ message ++ ". Instead returned: "
    ++ jsonStringify (.obj result)

/-- Expected-shape fragment of the missing-`callData` message. -/
def returnTypeMsg : W3FVersion → String
  | .v1 => "\x7bcanExec: bool, callData: string\x7d"
  | .v2 => "\x7bcanExec: bool, callData: \x7bto: string, data: string\x7d[]\x7d"

/-- Check of one V2 `callData` entry, following the loop body of
`_validateResult`: `to` must satisfy `isAddress`, `data` the hex rule, and a
truthy `value` must match `/^\d+$/` after string coercion. -/
def checkCallDataEntry (result : JsObj) (e : Json) : Except String Unit :=
  if !isAddress (jsField e "to") then
    .error (vErr result "returned invalid to address")
  else if !isValidData (jsField e "data") then
    .error (vErr result "returned invalid callData")
  else if jsTruthy (jsField e "value")
      && !isNumericString (jsToString (jsField e "value")) then
    .error (vErr result "returned invalid value (must be numeric string)")
  else .ok ()

/-- Left-to-right check of the V2 `callData` entries; the first failing entry
raises. -/
def checkEntries (result : JsObj) : List Json → Except String Unit
  | [] => .ok ()
  | e :: es =>
      match checkCallDataEntry result e with
      | .error m => .error m
      | .ok _ => checkEntries result es

/-- Shallow embedding of `Web3FunctionRunner._validateResult`: presence of
`canExec`; presence of `callData` when `canExec` is truthy; then the
per-version content checks. -/
def validateResult (version : W3FVersion) (result : JsObj) :
    Except String Unit :=
  if !(objKeys result).contains "canExec" then
    .error (vErr result "must return \x7bcanExec: bool\x7d")
  else if jsTruthy (objGetD result "canExec")
      && !(objKeys result).contains "callData" then
    .error (vErr result ("must return " ++ returnTypeMsg version))
  else
    match version with
    | .v1 =>
        if jsTruthy (objGetD result "canExec")
            && !isValidData (objGetD result "callData") then
          .error (vErr result "returned invalid callData")
        else .ok ()
    | .v2 =>
        if jsTruthy (objGetD result "canExec") then
          match objGetD result "callData" with
          | .arr entries => checkEntries result entries
          | _ => .error (vErr result ("must return " ++ returnTypeMsg .v2))
        else .ok ()

/-! ## Guest agent (`Web3Function._onFunctionEvent` and the storage facade) -/

/-- String-valued storage map, as carried by the `start` event (JSON objects
have string values and unique keys). -/
abbrev StrMap := List (String × String)

/-- JavaScript object holding the guest's working storage.  A value of `none`
is the `undefined` sentinel: `storage.delete` writes `ctxData.storage[key] =
undefined` rather than removing the key. -/
abbrev JsMap := List (String × Option String)

/-- Keys of a working-storage object, in insertion order. -/
def mapKeys (m : JsMap) : List String := m.map Prod.fst

/-- Property lookup in the working storage: `some none` is a present key
holding `undefined`; `none` is an absent key. -/
def mapGet (m : JsMap) (k : String) : Option (Option String) :=
  (m.find? (fun kv => kv.1 = k)).map Prod.snd

/-- Lookup in a string map. -/
def strGet (m : StrMap) (k : String) : Option String :=
  (m.find? (fun kv => kv.1 = k)).map Prod.snd

/-- Lift of the incoming snapshot to a working-storage object (every incoming
value is a string). -/
def liftMap (m : StrMap) : JsMap := m.map (fun kv => (kv.1, some kv.2))

/-- Property assignment `m[k] = v`: overwrite in place when the key exists,
append otherwise (JavaScript objects keep insertion order). -/
def jsAssign (m : JsMap) (k : String) (v : Option String) : JsMap :=
  if (mapKeys m).contains k then
    m.map (fun kv => if kv.1 = k then (kv.1, v) else kv)
  else m ++ [(k, v)]

/-- Storage mutations available to the user handler through the context
facade.  `set` with a non-string value throws instead of mutating, so a
handler run is a sequence of these well-typed mutations followed by an
outcome. -/
inductive StorageOp where
  | set (k v : String) : StorageOp
  | del (k : String) : StorageOp

/-- Effect of one facade call on `ctxData.storage`: `set` stores the string,
`delete` stores the `undefined` sentinel. -/
def applyOp (m : JsMap) : StorageOp → JsMap
  | .set k v => jsAssign m k (some v)
  | .del k => jsAssign m k none

/-- Working storage after the handler's storage calls. -/
def runOps (m : JsMap) (ops : List StorageOp) : JsMap := ops.foldl applyOp m

/-- Keys present in the pre map but not own properties of the post map, each
mapped to the deletion sentinel — the `deletedValues` accumulator of the
external `deep-object-diff` dependency, specialised to flat maps. -/
def deletedValues (pre : StrMap) (post : JsMap) : JsMap :=
  (pre.filter (fun kv => !(mapKeys post).contains kv.1)).map
    (fun kv => (kv.1, (none : Option String)))

/-- Added and changed entries of the post map relative to the pre map: a key
absent from pre contributes its post value; a key of pre contributes its post
value exactly when it differs — the main `reduce` of `deep-object-diff` on
flat maps, where the recursive `diff` on two scalars returns `{}` on equality
(skipped) and the right-hand scalar otherwise. -/
def addedChanged (pre : StrMap) (post : JsMap) : JsMap :=
  post.filterMap (fun kv =>
    match strGet pre kv.1 with
    | none => some kv
    | some v => if kv.2 = some v then none else some kv)

/-- Storage diff computed by the guest: `diff(prevStorage, ctxData.storage)`
of `deep-object-diff` specialised to flat maps (deleted keys first, then the
post keys in order).  The subsequent source loop rewriting `undefined`
entries to `null` is the identity here: the model does not distinguish the
two sentinels inside the diff, and the protocol serialisation renders `none`
as `null`. -/
def storageDiff (pre : StrMap) (post : JsMap) : JsMap :=
  deletedValues pre post ++ addedChanged pre post

/-- Storage block of a guest reply: `{state, storage, diff}`. -/
structure StorageDelta where
  state : String
  storage : JsMap
  diff : JsMap

/-- Error payload of an `error` reply. -/
structure ErrorInfo where
  name : String
  message : String

/-- Terminal reply of the guest for one `start` event. -/
inductive GuestReply where
  | result (result : Json) (storage : StorageDelta) : GuestReply
  | error (error : ErrorInfo) (storage : StorageDelta) : GuestReply

/-- Outcome of the registered user handler: a returned result, or a thrown
error (which also covers the missing-handler and non-string `storage.set`
errors). -/
inductive HandlerOutcome where
  | success (result : Json) : HandlerOutcome
  | thrown (name message : String) : HandlerOutcome

/-- Observable behaviour of one user-handler invocation: the storage facade
calls it performed (in order, up to the point of return or throw) and its
outcome. -/
structure HandlerRun where
  ops : List StorageOp
  outcome : HandlerOutcome

/-- Shallow embedding of the `start` branch of
`Web3Function._onFunctionEvent`: snapshot the incoming storage, run the
handler against the mutable copy, and reply with the result and storage
delta, or with the error and the untouched snapshot. -/
def onFunctionEvent (storage0 : StrMap) (run : HandlerRun) : GuestReply :=
  let post := runOps (liftMap storage0) run.ops
  match run.outcome with
  | .success result =>
      let difference := storageDiff storage0 post
      let state := if difference.isEmpty then "last" else "updated"
      .result result ⟨state, post, difference⟩
  | .thrown name message =>
      .error ⟨name, name ++ ": " ++ message⟩ ⟨"last", liftMap storage0, []⟩

/-- Value of key `k` in the post-storage as the supervisor observes it: the
protocol's JSON serialisation drops `undefined` entries, so a present key
holding the sentinel reads as absent. -/
def obsGet (m : JsMap) (k : String) : Option String := (mapGet m k).bind id

/-- Application of a diff to a pre map at key `k`: a `null` (`none`) entry
deletes the key, a string entry overrides it, an absent key falls through to
the pre map. -/
def applyDiff (pre : StrMap) (d : JsMap) (k : String) : Option String :=
  match mapGet d k with
  | some (some v) => some v
  | some none => none
  | none => strGet pre k

/-! ## Runner supervisor (`Web3FunctionRunner.run` and exit classification) -/

/-- Counters reported by the HTTP egress proxy (`getStats()`); `download` and
`upload` are in kilobytes. -/
structure NetworkStats where
  nbRequests : Nat
  nbThrottled : Nat
  download : ℚ
  upload : ℚ

/-- Counters reported by the RPC proxy (`getNbRpcCalls()`). -/
structure RpcStats where
  total : Nat
  throttled : Nat

/-- Sandbox runtime variants. -/
inductive W3FRuntime where
  | thread : W3FRuntime
  | docker : W3FRuntime
  deriving DecidableEq

/-- Runner options consulted by the report assembly and the exit-code
classification: `memory`, `downloadLimit` and `uploadLimit` are in bytes,
`storageLimit` in kilobytes. -/
structure RunnerOptions where
  runtime : W3FRuntime
  memory : Nat
  requestLimit : Nat
  downloadLimit : ℚ
  uploadLimit : ℚ
  storageLimit : ℚ

/-- Throttle flags of the report.  The JavaScript object starts empty and
fields are assigned individually, so each flag is either absent (`none`) or
assigned a boolean. -/
structure Throttled where
  duration : Option Bool := none
  memory : Option Bool := none
  rpcRequest : Option Bool := none
  networkRequest : Option Bool := none
  download : Option Bool := none
  upload : Option Bool := none
  storage : Option Bool := none

/-- Throttle reasons carried by the `Web3FunctionRuntimeError` values the
runner constructs in the source: `duration` on execution timeout,
`rpcRequest` and `memory` from the exit-code classification. -/
inductive ThrottledReason where
  | duration : ThrottledReason
  | rpcRequest : ThrottledReason
  | memory : ThrottledReason
  deriving DecidableEq

/-- Errors that reach the `catch` of `run`: throttle-bearing runtime errors,
plain error payloads forwarded from the guest's `error` event (these fail the
`instanceof Web3FunctionRuntimeError` test), and generic failures. -/
inductive RunError where
  | runtime (message : String) (reason : ThrottledReason) : RunError
  | guest (name message : String) : RunError
  | generic (message : String) : RunError

/-- Assignment `throttled[error.throttledReason] = true`. -/
def setReason (t : Throttled) : ThrottledReason → Throttled
  | .duration => { t with duration := some true }
  | .rpcRequest => { t with rpcRequest := some true }
  | .memory => { t with memory := some true }

/-- Shallow embedding of the exit-signal classification in `_runInSandbox`
(the branch taken when no result event arrived before process exit):
`0` means the guest exited silently, `250` is the RPC-throttle exit, `137`
under docker or a sampled memory at or above the cap under the thread
runtime is a memory kill, anything else is a generic failure. -/
def classifyExit (options : RunnerOptions) (signal : Nat) (memory : Nat) :
    RunError :=
  if signal = 0 then
    .generic "Web3Function exited without returning result"
  else if signal = 250 then
    .runtime ("Web3Function exited with code=" ++ (⟨natDigits signal⟩ : String)
      ++ " (RPC requests limit exceeded)") .rpcRequest
  else if (options.runtime = .docker ∧ signal = 137)
      ∨ (options.runtime = .thread ∧ memory ≥ options.memory) then
    .runtime ("Web3Function exited with code=" ++ (⟨natDigits signal⟩ : String)
      ++ " (Memory limit exceeded)") .memory
  else
    .generic ("Web3Function exited with code=" ++ (⟨natDigits signal⟩ : String))

/-- Storage block of a `result` event as the supervisor receives it over the
JSON protocol: `undefined` entries of the guest's working storage were
dropped by serialisation, while `diff` retains explicit `null` entries. -/
structure RunnerStorage where
  state : String
  storage : StrMap
  diff : JsMap

/-- JSON value of a received storage block, as re-serialised by
`JSON.stringify(data.storage)`. -/
def storageToJson (s : RunnerStorage) : Json :=
  .obj [("state", .str s.state),
        ("storage", .obj (s.storage.map (fun kv => (kv.1, .str kv.2)))),
        ("diff", .obj (s.diff.map (fun kv =>
          (kv.1, match kv.2 with | none => Json.null | some v => .str v))))]

/-- Storage size in kilobytes:
`Buffer.byteLength(JSON.stringify(data.storage), "utf-8") / 1024`. -/
def storageSize (s : RunnerStorage) : ℚ :=
  ((jsonStringify (storageToJson s)).utf8ByteSize : ℚ) / 1024

/-- Received storage block together with its computed size. -/
structure StorageWithSize where
  state : String
  storage : StrMap
  diff : JsMap
  size : ℚ
  deriving DecidableEq

/-- Execution report returned by `run`. -/
structure ExecReport where
  success : Bool
  version : W3FVersion
  result : Option Json := none
  storage : Option StorageWithSize := none
  error : Option RunError := none
  logs : List String
  duration : ℚ
  memory : ℚ
  rpcCalls : RpcStats
  network : NetworkStats
  throttled : Throttled

/-- Throttle flags assigned from the HTTP proxy counters: inside the
`nbThrottled > 0` branch the three network flags are each assigned the
outcome of their comparison; otherwise the object stays empty. -/
def networkThrottled (options : RunnerOptions) (stats : NetworkStats) :
    Throttled :=
  if stats.nbThrottled > 0 then
    { networkRequest := some (decide (stats.nbRequests ≥ options.requestLimit)),
      download := some (decide (stats.download ≥ options.downloadLimit / 1024)),
      upload := some (decide (stats.upload ≥ options.uploadLimit / 1024)) }
  else {}

/-- Try-block of `run` after the sandbox phase: validate the result, and on
success attach the computed storage size. -/
def runAttempt (version : W3FVersion)
    (sandboxOutcome : Except RunError (JsObj × RunnerStorage)) :
    Except RunError (JsObj × StorageWithSize) :=
  match sandboxOutcome with
  | .error e => .error e
  | .ok (res, sto) =>
      match validateResult version res with
      | .error m => .error (.generic m)
      | .ok _ => .ok (res, ⟨sto.state, sto.storage, sto.diff, storageSize sto⟩)

/-- Shallow embedding of the body of `Web3FunctionRunner.run` after the
sandbox phase: validate the result and attach the storage size on success;
then set the network throttle flags from the proxy counters, the storage
flag on a successful updated storage, and on failure forward the throttle
reason of a runtime error.  `logs`, `duration`, `memory` and `rpcCalls` are
environment-derived observations passed through to the report. -/
def runReport (version : W3FVersion) (options : RunnerOptions)
    (sandboxOutcome : Except RunError (JsObj × RunnerStorage))
    (logs : List String) (duration memoryMb : ℚ) (rpcCalls : RpcStats)
    (stats : NetworkStats) : ExecReport :=
  match runAttempt version sandboxOutcome with
  | .ok (res, stoS) =>
      { success := true, version := version, result := some (.obj res),
        storage := some stoS, logs := logs, duration := duration,
        memory := memoryMb, rpcCalls := rpcCalls, network := stats,
        throttled :=
          if stoS.state = "updated" then
            { networkThrottled options stats with
                storage := some (decide (stoS.size > options.storageLimit)) }
          else networkThrottled options stats }
  | .error e =>
      { success := false, version := version, error := some e, logs := logs,
        duration := duration, memory := memoryMb, rpcCalls := rpcCalls,
        network := stats,
        throttled :=
          match e with
          | .runtime _ r => setReason (networkThrottled options stats) r
          | _ => networkThrottled options stats }

/-! ## JSON parsing (`JSON.parse` as used by `parseUserArgs`)

The parser models `JSON.parse` on the fragment observable through the
user-args typecheck: scalar literals and arrays of scalar literals.  Every
other JSON document — objects, nested arrays, fractional or exponent
numbers (outside the integer number model) — is mapped to a parse failure;
in `parseUserArgs` those inputs funnel to the same rejected outcome, since
the typecheck refuses every value that is not a scalar or an array of
scalars. -/

/-- JSON whitespace. -/
def isJsonWs (c : Char) : Bool := c = ' ' || c = '\n' || c = '\t' || c = '\r'

/-- Drop leading JSON whitespace. -/
def skipWs : List Char → List Char
  | [] => []
  | c :: cs => if isJsonWs c then skipWs cs else c :: cs

/-- Value of a hexadecimal digit character. -/
def hexDigitVal (c : Char) : Option Nat :=
  if c.isDigit then some (c.toNat - 48)
  else if 'a' ≤ c && c ≤ 'f' then some (c.toNat - 87)
  else if 'A' ≤ c && c ≤ 'F' then some (c.toNat - 55)
  else none

/-- Characters denoted by the single-character escapes of JSON. -/
def escDecode : Char → Option Char
  | '"' => some '"'
  | '\\' => some '\\'
  | '/' => some '/'
  | 'b' => some '\x08'
  | 'f' => some '\x0c'
  | 'n' => some '\n'
  | 'r' => some '\r'
  | 't' => some '\t'
  | _ => none

/-- Body of a JSON string literal after the opening quote: the decoded
characters and the input after the closing quote.  Raw control characters
are a syntax error; `\uXXXX` escapes are restricted to non-surrogate code
points (the serialiser only ever emits `\u00XX`). -/
def parseStrChars : List Char → Option (List Char × List Char)
  | [] => none
  | c :: rest =>
      if c = '"' then some ([], rest)
      else if c = '\\' then
        match rest with
        | 'u' :: h1 :: h2 :: h3 :: h4 :: rest' =>
            match hexDigitVal h1, hexDigitVal h2, hexDigitVal h3, hexDigitVal h4 with
            | some a, some b, some cc, some d =>
                let code := ((a * 16 + b) * 16 + cc) * 16 + d
                if code < 0xD800 then
                  (parseStrChars rest').map (fun pr => (Char.ofNat code :: pr.1, pr.2))
                else none
            | _, _, _, _ => none
        | e :: rest' =>
            match escDecode e with
            | some c2 => (parseStrChars rest').map (fun pr => (c2 :: pr.1, pr.2))
            | none => none
        | [] => none
      else if c.toNat < 32 then none
      else (parseStrChars rest).map (fun pr => (c :: pr.1, pr.2))
  termination_by structural cs => cs

/-- Unsigned JSON integer: one or more digits, no leading zero, not followed
by a fraction or exponent (fractional numbers are outside the integer number
model, as noted at `Json.num`). -/
def parseNatNum (cs : List Char) : Option (Nat × List Char) :=
  match cs.span Char.isDigit with
  | ([], _) => none
  | (d :: ds, rest) =>
      if d = '0' && !ds.isEmpty then none
      else if rest.head? = some '.' || rest.head? = some 'e'
          || rest.head? = some 'E' then none
      else some (digitsToNat (d :: ds), rest)

/-- Signed JSON integer. -/
def parseNum (cs : List Char) : Option (Int × List Char) :=
  if cs.head? = some '-' then
    (parseNatNum cs.tail).map (fun pr => (-(pr.1 : Int), pr.2))
  else (parseNatNum cs).map (fun pr => ((pr.1 : Int), pr.2))

/-- One scalar JSON value off the front of the input. -/
def parseScalar (cs : List Char) : Option (Json × List Char) :=
  if cs.take 4 = ['n', 'u', 'l', 'l'] then some (.null, cs.drop 4)
  else if cs.take 4 = ['t', 'r', 'u', 'e'] then some (.bool true, cs.drop 4)
  else if cs.take 5 = ['f', 'a', 'l', 's', 'e'] then some (.bool false, cs.drop 5)
  else if cs.head? = some '"' then
    (parseStrChars cs.tail).map (fun pr => (.str ⟨pr.1⟩, pr.2))
  else (parseNum cs).map (fun pr => (.num pr.1, pr.2))

/-- Remaining elements of a non-empty array, entered after one element has
been parsed: a comma and a scalar, repeated, then the closing bracket.  The
fuel only bounds the recursion; callers supply more than the input length. -/
def parseArrRest : Nat → List Json → List Char → Option (List Json × List Char)
  | 0, _, _ => none
  | fuel + 1, acc, cs =>
      match skipWs cs with
      | ']' :: rest => some (acc.reverse, rest)
      | ',' :: rest =>
          match parseScalar (skipWs rest) with
          | some (j, r) => parseArrRest fuel (j :: acc) r
          | none => none
      | _ => none

/-- Parse of an array body after the opening bracket and whitespace: an
immediate close bracket, or one scalar element followed by the
comma-separated remainder. -/
def jsonParseArr (cs : List Char) : Option Json :=
  if cs.head? = some ']' then
    if (skipWs cs.tail).isEmpty then some (.arr []) else none
  else
    match parseScalar cs with
    | some (j, r) =>
        match parseArrRest (r.length + 1) [j] r with
        | some (js, r') => if (skipWs r').isEmpty then some (.arr js) else none
        | none => none
    | none => none

/-- Whole-document parse: a scalar or an array of scalars, with surrounding
whitespace, and nothing after the value. -/
def jsonParse (s : String) : Option Json :=
  if (skipWs s.data).head? = some '[' then
    jsonParseArr (skipWs (skipWs s.data).tail)
  else
    match parseScalar (skipWs s.data) with
    | some (j, r) => if (skipWs r).isEmpty then some j else none
    | none => none

/-! ## User-args schema validation (`Web3FunctionRunner.parseUserArgs`) -/

/-- Declared user-argument types. -/
inductive W3FArgType where
  | boolean : W3FArgType
  | number : W3FArgType
  | string : W3FArgType
  | booleanArr : W3FArgType
  | numberArr : W3FArgType
  | stringArr : W3FArgType
  deriving DecidableEq

/-- Rendering of a declared type, as written in schemas. -/
def typeName : W3FArgType → String
  | .boolean => "boolean"
  | .number => "number"
  | .string => "string"
  | .booleanArr => "boolean[]"
  | .numberArr => "number[]"
  | .stringArr => "string[]"

/-- Result of `typeof` on a JSON value. -/
def typeofTag : Json → String
  | .null => "object"
  | .bool _ => "boolean"
  | .num _ => "number"
  | .str _ => "string"
  | .arr _ => "object"
  | .obj _ => "object"

/-- Element type of a declared type (`type.split("[]")[0]`). -/
def baseTag : W3FArgType → String
  | .boolean => "boolean"
  | .booleanArr => "boolean"
  | .number => "number"
  | .numberArr => "number"
  | .string => "string"
  | .stringArr => "string"

/-- Whether a declared type is an array type (`typing.length > 1`). -/
def isArrType : W3FArgType → Bool
  | .booleanArr => true
  | .numberArr => true
  | .stringArr => true
  | _ => false

/-- Typecheck of a parsed value against a declared type, following
`parseUserArgs`: an array type requires `Array.isArray` and every element of
the base `typeof`; a scalar type requires the base `typeof`. -/
def checkArgType (ty : W3FArgType) (j : Json) : Bool :=
  if isArrType ty then
    match j with
    | .arr xs => xs.all (fun x => typeofTag x == baseTag ty)
    | _ => false
  else typeofTag j == baseTag ty

/-- Example literal attached to a typecheck failure
(`_getInvalidParseExample`). -/
def invalidParseExample : W3FArgType → String
  | .boolean => "(use: \x27true\x27)"
  | .booleanArr => "(use: \x27[true, false]\x27)"
  | .string => "(use: \x27\"a\"\x27)"
  | .stringArr => "(use: \x27[\"a\", \"b\"]\x27)"
  | .number => "(use: \x271\x27)"
  | .numberArr => "(use: \x27[1, 2]\x27)"

/-- Message of the `SyntaxError` raised by `JSON.parse`; the exact wording is
engine-specific and immaterial to the claims. -/
def jsonSyntaxErrMsg : String := "SyntaxError: Unexpected token"

/-- Shallow embedding of `Web3FunctionRunner.parseUserArgs`: for each schema
key in order, the raw string must be present, `JSON.parse` it, and typecheck
the parsed value; a typecheck failure is caught by the surrounding `try` and
re-wrapped like a parse failure. -/
def parseUserArgs (schema : List (String × W3FArgType))
    (input : List (String × String)) : Except String (List (String × Json)) :=
  match schema with
  | [] => .ok []
  | (key, ty) :: rest =>
      match strGet input key with
      | none =>
          .error ("Web3FunctionSchemaError: Missing user arg \x27" ++ key ++ "\x27")
      | some value =>
          match jsonParse value with
          | none =>
              .error ("Parsing " ++ value ++ " to " ++ typeName ty
                ++ " failed. \n" ++ jsonSyntaxErrMsg)
          | some j =>
              if checkArgType ty j then
                (parseUserArgs rest input).map (fun out => (key, j) :: out)
              else
                .error ("Parsing " ++ value ++ " to " ++ typeName ty
                  ++ " failed. \nWeb3FunctionSchemaError: Invalid " ++ typeName ty
                  ++ " value \x27" ++ value ++ "\x27 for user arg \x27" ++ key
                  ++ "\x27 " ++ invalidParseExample ty)

/-- Per-key JSON stringification of a typed user-args map, the `stringify`
side of the round-trip property. -/
def stringifyArgs (args : List (String × Json)) : List (String × String) :=
  args.map (fun kv => (kv.1, jsonStringify kv.2))

/-! ## Digit and number round-trip lemmas -/

theorem natDigitsAux_fuel :
    ∀ fuel fuel' n, n < fuel → n < fuel' →
      natDigitsAux fuel n = natDigitsAux fuel' n := by
  intro fuel
  induction fuel with
  | zero => omega
  | succ f ih =>
    intro fuel' n h h'
    match fuel', h' with
    | f' + 1, _ =>
      show natDigitsAux (f + 1) n = natDigitsAux (f' + 1) n
      rw [natDigitsAux, natDigitsAux]
      by_cases h10 : n < 10
      · rw [if_pos h10, if_pos h10]
      · rw [if_neg h10, if_neg h10, ih (f') (n / 10) (by omega) (by omega)]

theorem natDigits_eq (n : Nat) :
    natDigits n = if n < 10 then [digitChar n]
      else natDigits (n / 10) ++ [digitChar (n % 10)] := by
  show natDigitsAux (n + 1) n = _
  rw [natDigitsAux]
  by_cases h10 : n < 10
  · rw [if_pos h10, if_pos h10]
  · rw [if_neg h10, if_neg h10]
    rw [natDigitsAux_fuel n (n / 10 + 1) (n / 10) (by omega) (by omega)]
    rfl

theorem digitVal_digitChar : ∀ d < 10, digitVal (digitChar d) = d := by decide

theorem isDigit_digitChar : ∀ d < 10, (digitChar d).isDigit = true := by decide

theorem digitChar_ne_zero : ∀ d, 1 ≤ d → d < 10 → digitChar d ≠ '0' := by decide

theorem natDigits_ne_nil (n : Nat) : natDigits n ≠ [] := by
  rw [natDigits_eq]
  split
  · simp
  · simp

theorem natDigits_all_digits (n : Nat) : ∀ c ∈ natDigits n, c.isDigit = true := by
  induction n using Nat.strong_induction_on with
  | _ n ih =>
    rw [natDigits_eq]
    split
    · next h =>
      intro c hc
      simp only [List.mem_singleton] at hc
      subst hc
      exact isDigit_digitChar n h
    · next h =>
      intro c hc
      rcases List.mem_append.mp hc with h1 | h2
      · exact ih (n / 10) (Nat.div_lt_self (by omega) (by omega)) c h1
      · simp only [List.mem_singleton] at h2
        subst h2
        exact isDigit_digitChar (n % 10) (Nat.mod_lt n (by omega))

theorem digitsToNat_append (ds : List Char) (c : Char) :
    digitsToNat (ds ++ [c]) = 10 * digitsToNat ds + digitVal c := by
  simp [digitsToNat, List.foldl_append]

theorem digitsToNat_natDigits (n : Nat) : digitsToNat (natDigits n) = n := by
  induction n using Nat.strong_induction_on with
  | _ n ih =>
    rw [natDigits_eq]
    split
    · next h =>
      simp [digitsToNat, digitVal_digitChar n h]
    · next h =>
      rw [digitsToNat_append, ih (n / 10) (Nat.div_lt_self (by omega) (by omega)),
        digitVal_digitChar (n % 10) (Nat.mod_lt n (by omega))]
      omega

theorem natDigits_head_ne_zero (n : Nat) (hn : 1 ≤ n) :
    ∀ d ds, natDigits n = d :: ds → d ≠ '0' := by
  induction n using Nat.strong_induction_on with
  | _ n ih =>
    rw [natDigits_eq]
    split
    · next h =>
      intro d ds hd
      simp only [List.cons.injEq] at hd
      rw [← hd.1]
      exact digitChar_ne_zero n hn h
    · next h =>
      intro d ds hd
      obtain ⟨d', ds', hd'⟩ := List.exists_cons_of_ne_nil (natDigits_ne_nil (n / 10))
      rw [hd'] at hd
      simp only [List.cons_append, List.cons.injEq] at hd
      exact hd.1 ▸ ih (n / 10) (Nat.div_lt_self (by omega) (by omega))
        (by omega) d' ds' hd'

/-! ## String-literal round-trip lemmas -/

theorem charOfNat_toNat (c : Char) : Char.ofNat c.toNat = c := by
  rcases c with ⟨v, h⟩
  have hv : v.toNat.isValidChar := h
  simp only [Char.ofNat, Char.toNat, dif_pos hv]
  simp only [Char.ofNatAux]
  congr 1

theorem hexDigitVal_hexNibble : ∀ m < 16, hexDigitVal (hexNibble m) = some m := by
  decide

theorem parseStrChars_escChars (s rest : List Char) :
    parseStrChars (escChars s ++ '"' :: rest) = some (s, rest) := by
  induction s with
  | nil =>
      show parseStrChars (escChars [] ++ '"' :: rest) = some ([], rest)
      rw [escChars, List.nil_append, parseStrChars.eq_def]
      simp
  | cons c cs ih =>
      show parseStrChars ((escapeChar c ++ escChars cs) ++ '"' :: rest) = _
      rw [List.append_assoc]
      by_cases h1 : c = '"'
      · subst h1
        rw [escapeChar]
        simp only [if_pos rfl, List.cons_append, List.nil_append]
        rw [parseStrChars.eq_def]
        simp [escDecode, ih]
      by_cases h2 : c = '\\'
      · subst h2
        rw [escapeChar]
        rw [if_neg (by decide), if_pos rfl]
        simp only [List.cons_append, List.nil_append]
        rw [parseStrChars.eq_def]
        simp [escDecode, ih]
      by_cases h3 : c = '\x08'
      · subst h3
        rw [escapeChar]
        rw [if_neg (by decide), if_neg (by decide), if_pos rfl]
        simp only [List.cons_append, List.nil_append]
        rw [parseStrChars.eq_def]
        simp [escDecode, ih]
      by_cases h4 : c = '\x0c'
      · subst h4
        rw [escapeChar]
        rw [if_neg (by decide), if_neg (by decide), if_neg (by decide),
          if_pos rfl]
        simp only [List.cons_append, List.nil_append]
        rw [parseStrChars.eq_def]
        simp [escDecode, ih]
      by_cases h5 : c = '\n'
      · subst h5
        rw [escapeChar]
        rw [if_neg (by decide), if_neg (by decide), if_neg (by decide),
          if_neg (by decide), if_pos rfl]
        simp only [List.cons_append, List.nil_append]
        rw [parseStrChars.eq_def]
        simp [escDecode, ih]
      by_cases h6 : c = '\r'
      · subst h6
        rw [escapeChar]
        rw [if_neg (by decide), if_neg (by decide), if_neg (by decide),
          if_neg (by decide), if_neg (by decide), if_pos rfl]
        simp only [List.cons_append, List.nil_append]
        rw [parseStrChars.eq_def]
        simp [escDecode, ih]
      by_cases h7 : c = '\t'
      · subst h7
        rw [escapeChar]
        rw [if_neg (by decide), if_neg (by decide), if_neg (by decide),
          if_neg (by decide), if_neg (by decide), if_neg (by decide),
          if_pos rfl]
        simp only [List.cons_append, List.nil_append]
        rw [parseStrChars.eq_def]
        simp [escDecode, ih]
      by_cases h8 : c.toNat < 32
      · have hdiv : c.toNat / 16 < 16 := by omega
        have hmod : c.toNat % 16 < 16 := by omega
        rw [escapeChar]
        rw [if_neg h1, if_neg h2, if_neg h3, if_neg h4, if_neg h5, if_neg h6,
          if_neg h7, if_pos h8]
        simp only [List.cons_append, List.nil_append]
        rw [parseStrChars.eq_def]
        dsimp only
        rw [if_neg (by decide : ¬('\\' : Char) = '"'),
          if_pos (rfl : ('\\' : Char) = '\\')]
        simp only [hexDigitVal_hexNibble _ hdiv, hexDigitVal_hexNibble _ hmod,
          (by decide : hexDigitVal '0' = some 0)]
        have hcode :
            ((0 * 16 + 0) * 16 + c.toNat / 16) * 16 + c.toNat % 16 = c.toNat := by
          omega
        simp only [hcode]
        rw [if_pos (by omega : c.toNat < 0xD800), ih]
        simp [charOfNat_toNat]
      · rw [escapeChar]
        rw [if_neg h1, if_neg h2, if_neg h3, if_neg h4, if_neg h5, if_neg h6,
          if_neg h7, if_neg h8]
        simp only [List.cons_append, List.nil_append]
        rw [parseStrChars.eq_def]
        dsimp only
        rw [if_neg h1, if_neg h2, if_neg h8, ih]
        rfl

/-! ## Number and scalar round-trip lemmas -/

/-- Boundary condition after a serialised number: the input is exhausted or
continues with a character that is neither a digit nor a fraction or
exponent marker.  Every separator of `stringifyChars` satisfies it. -/
def numBoundary : List Char → Prop
  | [] => True
  | c :: _ => c.isDigit = false ∧ c ≠ '.' ∧ c ≠ 'e' ∧ c ≠ 'E'

theorem isDigit_toNat (c : Char) (h : c.isDigit = true) :
    48 ≤ c.toNat ∧ c.toNat ≤ 57 := by
  simp only [Char.isDigit, Bool.and_eq_true, decide_eq_true_eq] at h
  exact h

theorem digit_ne_keyword (c : Char) (h : c.isDigit = true) :
    c ≠ 'n' ∧ c ≠ 't' ∧ c ≠ 'f' ∧ c ≠ '"' ∧ c ≠ '-' ∧ c ≠ '[' := by
  obtain ⟨h1, h2⟩ := isDigit_toNat c h
  refine ⟨?_, ?_, ?_, ?_, ?_, ?_⟩ <;>
    · intro hc
      subst hc
      exact absurd (And.intro h1 h2) (by decide)

theorem takeWhile_digits (ds rest : List Char)
    (hds : ∀ c ∈ ds, c.isDigit = true) (hrest : numBoundary rest) :
    (ds ++ rest).takeWhile Char.isDigit = ds
      ∧ (ds ++ rest).dropWhile Char.isDigit = rest := by
  induction ds with
  | nil =>
      cases rest with
      | nil => simp
      | cons c cs =>
          obtain ⟨h1, -⟩ := hrest
          simp [List.takeWhile_cons, List.dropWhile_cons, h1]
  | cons d ds ih =>
      have hd := hds d (by simp)
      have hih := ih (fun c hc => hds c (by simp [hc]))
      simp only [List.cons_append, List.takeWhile_cons, List.dropWhile_cons, hd,
        if_pos rfl, if_true]
      exact ⟨by rw [hih.1], by rw [hih.2]⟩

theorem parseNatNum_natDigits (n : Nat) (rest : List Char)
    (h : numBoundary rest) : parseNatNum (natDigits n ++ rest) = some (n, rest) := by
  obtain ⟨d, ds, hds⟩ := List.exists_cons_of_ne_nil (natDigits_ne_nil n)
  have hspan := takeWhile_digits (natDigits n) rest (natDigits_all_digits n) h
  rw [parseNatNum, List.span_eq_take_drop, hspan.1, hspan.2, hds]
  dsimp only
  have hzero : (d = '0' && !ds.isEmpty) = false := by
    cases hd0 : ds.isEmpty
    · have hne : ds ≠ [] := by
        cases ds
        · simp at hd0
        · simp
      have h10 : ¬n < 10 := by
        intro hlt
        rw [natDigits_eq, if_pos hlt] at hds
        simp only [List.cons.injEq] at hds
        exact hne hds.2.symm
      have h1 : 1 ≤ n := by omega
      have := natDigits_head_ne_zero n h1 d ds hds
      simp [this]
    · simp
  rw [hzero]
  have hb : (rest.head? = some '.' || rest.head? = some 'e'
      || rest.head? = some 'E') = false := by
    cases rest with
    | nil => simp
    | cons c cs =>
        obtain ⟨-, hb1, hb2, hb3⟩ := h
        simp [hb1, hb2, hb3]
  simp only [Bool.false_eq_true, if_false, hb]
  rw [← hds, digitsToNat_natDigits]

theorem intChars_head (n : Int) :
    ∃ d t, intChars n = d :: t ∧ (d.isDigit = true ∨ d = '-') := by
  obtain ⟨d, ds, hds⟩ := List.exists_cons_of_ne_nil (natDigits_ne_nil n.natAbs)
  rw [intChars]
  by_cases hn : n < 0
  · exact ⟨'-', natDigits n.natAbs, by rw [if_pos hn], Or.inr rfl⟩
  · refine ⟨d, ds, by rw [if_neg hn, hds], Or.inl ?_⟩
    exact natDigits_all_digits n.natAbs d (by rw [hds]; simp)

theorem parseNum_intChars (n : Int) (rest : List Char) (h : numBoundary rest) :
    parseNum (intChars n ++ rest) = some (n, rest) := by
  rw [parseNum]
  by_cases hn : n < 0
  · rw [intChars, if_pos hn]
    rw [List.cons_append, List.head?_cons, if_pos rfl, List.tail_cons,
      parseNatNum_natDigits n.natAbs rest h]
    simp only [Option.map_some', Option.some.injEq]
    refine Prod.ext ?_ rfl
    show -(n.natAbs : Int) = n
    omega
  · obtain ⟨d, t, hdt, hd⟩ := intChars_head n
    have hdigit : d.isDigit = true := by
      rcases hd with hd | hd
      · exact hd
      · subst hd
        rw [intChars, if_neg hn] at hdt
        exact natDigits_all_digits n.natAbs '-' (by rw [hdt]; simp)
    have hne : ¬(d :: (t ++ rest)).head? = some '-' := by
      obtain ⟨h1, h2⟩ := isDigit_toNat d hdigit
      simp only [List.head?_cons, Option.some.injEq]
      intro hc
      subst hc
      exact absurd (And.intro h1 h2) (by decide)
    rw [hdt, List.cons_append, if_neg hne, ← List.cons_append, ← hdt,
      intChars, if_neg hn, parseNatNum_natDigits n.natAbs rest h]
    simp only [Option.map_some', Option.some.injEq]
    refine Prod.ext ?_ rfl
    show (n.natAbs : Int) = n
    omega

/-- Scalar JSON values: everything except arrays and objects. -/
def scalarJson : Json → Bool
  | .arr _ => false
  | .obj _ => false
  | _ => true

theorem stringMk_data (s : String) : (⟨s.data⟩ : String) = s := rfl

theorem parseScalar_stringifyChars (j : Json) (rest : List Char)
    (hj : scalarJson j = true) (hb : numBoundary rest) :
    parseScalar (stringifyChars j ++ rest) = some (j, rest) := by
  cases j with
  | null =>
      show parseScalar ('n' :: 'u' :: 'l' :: 'l' :: rest) = _
      rw [parseScalar]
      simp
  | bool b =>
      cases b
      · show parseScalar ('f' :: 'a' :: 'l' :: 's' :: 'e' :: rest) = _
        rw [parseScalar]
        simp
      · show parseScalar ('t' :: 'r' :: 'u' :: 'e' :: rest) = _
        rw [parseScalar]
        simp
  | str s =>
      show parseScalar (('"' :: (escChars s.data ++ ['"'])) ++ rest) = _
      rw [List.cons_append, List.append_assoc, List.singleton_append]
      rw [parseScalar]
      rw [if_neg (by simp), if_neg (by simp), if_neg (by simp)]
      rw [if_pos (by simp), List.tail_cons, parseStrChars_escChars]
      simp [stringMk_data]
  | num n =>
      obtain ⟨d, t, hdt, hd⟩ := intChars_head n
      have hne : d ≠ 'n' ∧ d ≠ 't' ∧ d ≠ 'f' ∧ d ≠ '"' := by
        rcases hd with hdig | hminus
        · obtain ⟨k1, k2, k3, k4, -, -⟩ := digit_ne_keyword d hdig
          exact ⟨k1, k2, k3, k4⟩
        · subst hminus
          refine ⟨by decide, by decide, by decide, by decide⟩
      show parseScalar (intChars n ++ rest) = _
      rw [hdt, List.cons_append, parseScalar]
      rw [if_neg (by simp [hne.1]), if_neg (by simp [hne.2.1]),
        if_neg (by simp [hne.2.2.1]), if_neg (by simp [hne.2.2.2])]
      rw [← List.cons_append, ← hdt, parseNum_intChars n rest hb]
      rfl
  | arr xs => simp [scalarJson] at hj
  | obj kvs => simp [scalarJson] at hj

/-- Flat JSON values: scalars and arrays of scalars — exactly the fragment a
user-args typecheck can accept. -/
def flatJson : Json → Bool
  | .arr xs => xs.all scalarJson
  | .obj _ => false
  | _ => true

/-- Separator-prefixed renderings of the array elements after the first. -/
def tailChars (xs : List Json) : List Char :=
  (xs.map (fun j => ',' :: stringifyChars j)).flatten

theorem arrChars_cons (x : Json) (xs : List Json) :
    arrChars (x :: xs) = stringifyChars x ++ tailChars xs := by
  induction xs generalizing x with
  | nil => simp [arrChars, tailChars]
  | cons y ys ih =>
      rw [arrChars, ih y]
      simp [tailChars]

theorem length_le_tailChars (xs : List Json) : xs.length ≤ (tailChars xs).length := by
  induction xs with
  | nil => simp [tailChars]
  | cons x xs ih =>
      simp only [tailChars, List.map_cons, List.flatten_cons, List.length_cons,
        List.length_append, List.length_cons]
      have : (tailChars xs).length = ((xs.map (fun j => ',' :: stringifyChars j)).flatten).length := rfl
      omega

theorem stringify_scalar_head (j : Json) (hj : scalarJson j = true) :
    ∃ d t, stringifyChars j = d :: t
      ∧ isJsonWs d = false ∧ d ≠ '[' ∧ d ≠ ']' := by
  cases j with
  | null => exact ⟨'n', _, rfl, by decide, by decide, by decide⟩
  | bool b =>
      cases b
      · exact ⟨'f', _, rfl, by decide, by decide, by decide⟩
      · exact ⟨'t', _, rfl, by decide, by decide, by decide⟩
  | str s => exact ⟨'"', _, rfl, by decide, by decide, by decide⟩
  | num n =>
      obtain ⟨d, t, hdt, hd⟩ := intChars_head n
      refine ⟨d, t, hdt, ?_, ?_, ?_⟩
      · rcases hd with hdig | hminus
        · obtain ⟨k1, k2⟩ := isDigit_toNat d hdig
          cases hws : isJsonWs d
          · rfl
          · exfalso
            simp only [isJsonWs, Bool.or_eq_true, decide_eq_true_eq] at hws
            rcases hws with ((hc | hc) | hc) | hc <;>
              · subst hc
                exact absurd (And.intro k1 k2) (by decide)
        · subst hminus; decide
      · rcases hd with hdig | hminus
        · obtain ⟨k1, k2⟩ := isDigit_toNat d hdig
          intro hc
          subst hc
          exact absurd (And.intro k1 k2) (by decide)
        · subst hminus; decide
      · rcases hd with hdig | hminus
        · obtain ⟨k1, k2⟩ := isDigit_toNat d hdig
          intro hc
          subst hc
          exact absurd (And.intro k1 k2) (by decide)
        · subst hminus; decide
  | arr xs => simp [scalarJson] at hj
  | obj kvs => simp [scalarJson] at hj

theorem skipWs_cons_not_ws (c : Char) (t : List Char) (h : isJsonWs c = false) :
    skipWs (c :: t) = c :: t := by
  rw [skipWs, h]
  simp

theorem numBoundary_tailChars (xs : List Json) (rest : List Char) :
    numBoundary (tailChars xs ++ ']' :: rest) := by
  cases xs with
  | nil =>
      show numBoundary (']' :: rest)
      exact ⟨by decide, by decide, by decide, by decide⟩
  | cons x xs =>
      have h : tailChars (x :: xs) = ',' :: (stringifyChars x ++ tailChars xs) := by
        simp [tailChars]
      rw [h, List.cons_append]
      exact ⟨by decide, by decide, by decide, by decide⟩

theorem parseArrRest_cons_close (f : Nat) (acc : List Json) (X : List Char) :
    parseArrRest (f + 1) acc (']' :: X) = some (acc.reverse, X) := by
  rw [parseArrRest, skipWs_cons_not_ws ']' _ (by decide)]
  rfl

theorem parseArrRest_cons_comma (f : Nat) (acc : List Json) (X : List Char) :
    parseArrRest (f + 1) acc (',' :: X)
      = match parseScalar (skipWs X) with
        | some (j, r) => parseArrRest f (j :: acc) r
        | none => none := by
  rw [parseArrRest, skipWs_cons_not_ws ',' _ (by decide)]
  rfl

theorem parseArrRest_spec :
    ∀ (xs : List Json) (fuel : Nat) (acc : List Json) (rest : List Char),
      (∀ j ∈ xs, scalarJson j = true) → xs.length < fuel →
      parseArrRest fuel acc (tailChars xs ++ ']' :: rest)
        = some (acc.reverse ++ xs, rest) := by
  intro xs
  induction xs with
  | nil =>
      intro fuel acc rest _ hfuel
      match fuel, hfuel with
      | f + 1, _ =>
        show parseArrRest (f + 1) acc (']' :: rest) = some (acc.reverse ++ [], rest)
        rw [parseArrRest_cons_close]
        simp
  | cons x xs ih =>
      intro fuel acc rest hsc hfuel
      obtain ⟨f, rfl⟩ : ∃ f, fuel = f + 1 := ⟨fuel - 1, by omega⟩
      · have hx := hsc x (by simp)
        have htail : tailChars (x :: xs) = ',' :: (stringifyChars x ++ tailChars xs) := by
          simp [tailChars]
        rw [htail, List.cons_append, parseArrRest_cons_comma]
        obtain ⟨d, t, hdt, hws, -, -⟩ := stringify_scalar_head x hx
        rw [List.append_assoc, hdt, List.cons_append,
          skipWs_cons_not_ws d _ hws, ← List.cons_append, ← hdt,
          parseScalar_stringifyChars x _ hx (numBoundary_tailChars xs rest)]
        show parseArrRest f (x :: acc) (tailChars xs ++ ']' :: rest)
          = some (acc.reverse ++ x :: xs, rest)
        rw [ih f (x :: acc) rest (fun j hj => hsc j (by simp [hj])) (by simp only [List.length_cons] at hfuel; omega)]
        simp

theorem jsonParse_stringify_scalar (j : Json) (hj : scalarJson j = true) :
    jsonParse (jsonStringify j) = some j := by
  obtain ⟨d, t, hdt, hws, hbr, -⟩ := stringify_scalar_head j hj
  have hdata : (jsonStringify j).data = stringifyChars j := rfl
  rw [jsonParse, hdata, hdt, skipWs_cons_not_ws d t hws]
  rw [if_neg (by simp [hbr])]
  rw [← hdt]
  have hnil : stringifyChars j = stringifyChars j ++ [] := by simp
  rw [hnil, parseScalar_stringifyChars j [] hj trivial]
  rfl

theorem jsonParse_stringify (j : Json) (hj : flatJson j = true) :
    jsonParse (jsonStringify j) = some j := by
  have hdata : ∀ k : Json, (jsonStringify k).data = stringifyChars k := fun _ => rfl
  cases j with
  | arr xs =>
      have harr : stringifyChars (.arr xs) = '[' :: (arrChars xs ++ [']']) := rfl
      rw [jsonParse, hdata, harr, skipWs_cons_not_ws '[' _ (by decide)]
      rw [if_pos (by simp), List.tail_cons]
      cases xs with
      | nil =>
          show jsonParseArr (skipWs (arrChars [] ++ [']'])) = some (.arr [])
          rw [arrChars, List.nil_append, skipWs_cons_not_ws ']' _ (by decide),
            jsonParseArr, if_pos (by simp)]
          simp [skipWs]
      | cons x xs =>
          have hx : scalarJson x = true := by
            have := hj
            simp only [flatJson, List.all_cons, Bool.and_eq_true] at this
            exact this.1
          have hxs : ∀ k ∈ xs, scalarJson k = true := by
            intro k hk
            have := hj
            simp only [flatJson, List.all_cons, Bool.and_eq_true] at this
            exact List.all_eq_true.mp this.2 k hk
          rw [arrChars_cons, List.append_assoc]
          obtain ⟨d, t, hdt, hws, -, hbr2⟩ := stringify_scalar_head x hx
          rw [hdt, List.cons_append, skipWs_cons_not_ws d _ hws, jsonParseArr]
          rw [if_neg (by simp [hbr2])]
          rw [← List.cons_append, ← hdt,
            parseScalar_stringifyChars x _ hx (numBoundary_tailChars xs [])]
          show (match parseArrRest ((tailChars xs ++ [']']).length + 1) [x]
              (tailChars xs ++ [']']) with
            | some (js, r2) => if (skipWs r2).isEmpty then some (Json.arr js) else none
            | none => none) = some (Json.arr (x :: xs))
          have hlen : xs.length < (tailChars xs ++ [']']).length + 1 := by
            have := length_le_tailChars xs
            simp only [List.length_append, List.length_cons, List.length_nil]
            omega
          rw [parseArrRest_spec xs _ [x] [] hxs hlen]
          simp [skipWs]
  | obj kvs => simp [flatJson] at hj
  | null => exact jsonParse_stringify_scalar _ rfl
  | bool b => exact jsonParse_stringify_scalar _ rfl
  | num n => exact jsonParse_stringify_scalar _ rfl
  | str s => exact jsonParse_stringify_scalar _ rfl

/-! ## User-args round-trip lemmas -/

theorem scalar_of_typeofTag (bt : String)
    (hbt : bt = "boolean" ∨ bt = "number" ∨ bt = "string") (j : Json)
    (h : (typeofTag j == bt) = true) : scalarJson j = true := by
  cases j <;> rcases hbt with h2 | h2 | h2 <;> subst h2 <;>
    simp [typeofTag, scalarJson] at h ⊢

theorem baseTag_cases (ty : W3FArgType) :
    baseTag ty = "boolean" ∨ baseTag ty = "number" ∨ baseTag ty = "string" := by
  cases ty <;> simp [baseTag]

theorem flat_of_scalar (j : Json) (h : scalarJson j = true) : flatJson j = true := by
  cases j <;> simp_all [scalarJson, flatJson]

theorem flat_of_checkArgType (ty : W3FArgType) (j : Json)
    (h : checkArgType ty j = true) : flatJson j = true := by
  by_cases harr : isArrType ty = true
  · rw [checkArgType.eq_def, if_pos harr] at h
    cases j with
    | arr xs =>
        have hall : xs.all (fun x => typeofTag x == baseTag ty) = true := h
        rw [flatJson, List.all_eq_true]
        intro x hx
        exact scalar_of_typeofTag (baseTag ty) (baseTag_cases ty) x
          (List.all_eq_true.mp hall x hx)
    | null => exact absurd h Bool.false_ne_true
    | bool b => exact absurd h Bool.false_ne_true
    | num n => exact absurd h Bool.false_ne_true
    | str s2 => exact absurd h Bool.false_ne_true
    | obj kvs => exact absurd h Bool.false_ne_true
  · rw [checkArgType.eq_def, if_neg harr] at h
    exact flat_of_scalar j (scalar_of_typeofTag (baseTag ty) (baseTag_cases ty) j h)

theorem strGet_stringifyArgs (args : JsObj) (k : String) :
    strGet (stringifyArgs args) k = (objGet args k).map jsonStringify := by
  induction args with
  | nil => rfl
  | cons kv rest ih =>
      by_cases hk : kv.1 = k
      · simp [strGet, objGet, stringifyArgs, List.find?_cons, hk]
      · simp only [strGet, objGet, stringifyArgs, List.map_cons, List.find?_cons] at ih ⊢
        simp only [hk, decide_eq_false_iff_not, if_neg, decide_eq_true_eq]
        simpa [hk] using ih

theorem parseUserArgs_stringify_ok (schema : List (String × W3FArgType))
    (args : JsObj)
    (h : ∀ p ∈ schema, ∃ j, objGet args p.1 = some j ∧ checkArgType p.2 j = true) :
    parseUserArgs schema (stringifyArgs args)
      = .ok (schema.map (fun p => (p.1, (objGet args p.1).getD .null))) := by
  induction schema with
  | nil => rfl
  | cons p rest ih =>
      obtain ⟨j, hj, hty⟩ := h p (by simp)
      rcases p with ⟨key, ty⟩
      rw [parseUserArgs, strGet_stringifyArgs, hj]
      show (match jsonParse (jsonStringify j) with
        | none => Except.error ("Parsing " ++ jsonStringify j ++ " to " ++ typeName ty
            ++ " failed. \n" ++ jsonSyntaxErrMsg)
        | some j2 =>
            if checkArgType ty j2 then
              (parseUserArgs rest (stringifyArgs args)).map
                (fun out => (key, j2) :: out)
            else
              Except.error ("Parsing " ++ jsonStringify j ++ " to " ++ typeName ty
                ++ " failed. \nWeb3FunctionSchemaError: Invalid " ++ typeName ty
                ++ " value \x27" ++ jsonStringify j ++ "\x27 for user arg \x27" ++ key
                ++ "\x27 " ++ invalidParseExample ty)) = _
      rw [jsonParse_stringify j (flat_of_checkArgType ty j hty)]
      show (if checkArgType ty j then
          (parseUserArgs rest (stringifyArgs args)).map (fun out => (key, j) :: out)
        else _) = _
      rw [if_pos hty, ih (fun q hq => h q (by simp [hq]))]
      simp only [List.map_cons]
      show Except.ok ((key, j) :: _) = _
      simp [hj]


/-! ## Storage lemmas for the guest delta -/

theorem mapGet_cons_pos (kv : String × Option String) (m : JsMap) (k : String)
    (h : kv.1 = k) : mapGet (kv :: m) k = some kv.2 := by
  rw [mapGet, List.find?_cons_of_pos m (by simp [h])]
  rfl

theorem mapGet_cons_neg (kv : String × Option String) (m : JsMap) (k : String)
    (h : ¬kv.1 = k) : mapGet (kv :: m) k = mapGet m k := by
  rw [mapGet, List.find?_cons_of_neg m (by simp [h]), mapGet]

theorem mapGet_isSome_iff (m : JsMap) (k : String) :
    (mapGet m k).isSome = (mapKeys m).contains k := by
  induction m with
  | nil => rfl
  | cons kv rest ih =>
      rw [mapKeys, List.map_cons, List.contains_cons]
      by_cases hk : kv.1 = k
      · rw [mapGet_cons_pos kv rest k hk]
        simp [hk]
      · rw [mapGet_cons_neg kv rest k hk, ih, mapKeys]
        have hbeq : (k == kv.1) = false := by
          simp only [beq_eq_false_iff_ne, ne_eq]
          exact fun hc => hk hc.symm
        rw [hbeq, Bool.false_or]

theorem mapGet_overwrite (m : JsMap) (k : String) (v : Option String)
    (k2 : String) :
    mapGet (m.map (fun kv => if kv.1 = k then (kv.1, v) else kv)) k2
      = if k2 = k then (mapGet m k).map (fun _ => v) else mapGet m k2 := by
  induction m with
  | nil => by_cases h : k2 = k <;> simp [mapGet, h]
  | cons kv rest ih =>
      rw [List.map_cons]
      have hfst : (if kv.1 = k then (kv.1, v) else kv).1 = kv.1 := by
        by_cases h : kv.1 = k <;> simp [h]
      by_cases hk2 : kv.1 = k2
      · rw [mapGet_cons_pos _ _ k2 (by rw [hfst]; exact hk2),
          mapGet_cons_pos kv rest k2 hk2]
        by_cases hkk : kv.1 = k
        · have heq : k2 = k := by rw [← hk2, hkk]
          rw [if_pos heq, if_pos hkk]
          rw [show mapGet (kv :: rest) k = some kv.2 from
            mapGet_cons_pos kv rest k hkk]
          rfl
        · have hne : ¬k2 = k := by rw [← hk2]; exact hkk
          rw [if_neg hne, if_neg hkk]
      · rw [mapGet_cons_neg _ _ k2 (by rw [hfst]; exact hk2),
          mapGet_cons_neg kv rest k2 hk2, ih]
        by_cases hq : k2 = k
        · rw [if_pos hq, if_pos hq]
          have hkk : ¬kv.1 = k := by rw [← hq]; exact hk2
          rw [mapGet_cons_neg kv rest k hkk]
        · rw [if_neg hq, if_neg hq]

theorem mapGet_append (m1 m2 : JsMap) (k : String) :
    mapGet (m1 ++ m2) k
      = match mapGet m1 k with
        | some v => some v
        | none => mapGet m2 k := by
  induction m1 with
  | nil => simp [mapGet]
  | cons kv rest ih =>
      rw [List.cons_append]
      by_cases hk : kv.1 = k
      · rw [mapGet_cons_pos _ _ k hk, mapGet_cons_pos kv rest k hk]
      · rw [mapGet_cons_neg _ _ k hk, mapGet_cons_neg kv rest k hk, ih]

theorem mapGet_jsAssign (m : JsMap) (k : String) (v : Option String)
    (k2 : String) :
    mapGet (jsAssign m k v) k2 = if k2 = k then some v else mapGet m k2 := by
  rw [jsAssign]
  by_cases hc : (mapKeys m).contains k
  · rw [if_pos hc, mapGet_overwrite]
    by_cases hk : k2 = k
    · rw [if_pos hk, if_pos hk]
      have hsome : (mapGet m k).isSome = true := by rw [mapGet_isSome_iff, hc]
      obtain ⟨w, hw⟩ := Option.isSome_iff_exists.mp hsome
      rw [hw]
      rfl
    · rw [if_neg hk, if_neg hk]
  · rw [if_neg hc, mapGet_append]
    have hnone : mapGet m k = none := by
      refine Option.not_isSome_iff_eq_none.mp ?_
      rw [mapGet_isSome_iff m k]
      simpa using hc
    by_cases hk : k2 = k
    · subst hk
      rw [hnone, if_pos rfl, mapGet_cons_pos (k2, v) [] k2 rfl]
    · rw [if_neg hk]
      cases hm : mapGet m k2 with
      | some w => rfl
      | none =>
          show mapGet [(k, v)] k2 = none
          rw [mapGet_cons_neg (k, v) [] k2 (fun hc2 => hk hc2.symm)]
          rfl

theorem mapKeys_jsAssign (m : JsMap) (k : String) (v : Option String) :
    mapKeys (jsAssign m k v)
      = if (mapKeys m).contains k then mapKeys m else mapKeys m ++ [k] := by
  rw [jsAssign]
  by_cases hc : (mapKeys m).contains k
  · rw [if_pos hc, if_pos hc]
    show (m.map _).map Prod.fst = m.map Prod.fst
    rw [List.map_map]
    refine List.map_congr_left ?_
    intro kv _
    by_cases h : kv.1 = k <;> simp [h]
  · rw [if_neg hc, if_neg hc]
    simp [mapKeys]

theorem nodup_jsAssign (m : JsMap) (k : String) (v : Option String)
    (h : (mapKeys m).Nodup) : (mapKeys (jsAssign m k v)).Nodup := by
  rw [mapKeys_jsAssign]
  by_cases hc : (mapKeys m).contains k
  · rw [if_pos hc]; exact h
  · rw [if_neg hc]
    rw [List.nodup_append]
    refine ⟨h, List.nodup_singleton k, ?_⟩
    intro a ha hb
    simp only [List.mem_singleton] at hb
    subst hb
    exact hc (List.elem_iff.mpr ha)

theorem nodup_runOps (m : JsMap) (ops : List StorageOp)
    (h : (mapKeys m).Nodup) : (mapKeys (runOps m ops)).Nodup := by
  induction ops generalizing m with
  | nil => exact h
  | cons op rest ih =>
      show (mapKeys (runOps (applyOp m op) rest)).Nodup
      refine ih (applyOp m op) ?_
      cases op with
      | set k v => exact nodup_jsAssign m k (some v) h
      | del k => exact nodup_jsAssign m k none h

theorem mapGet_runOps_isSome (m : JsMap) (ops : List StorageOp) (k : String)
    (h : (mapGet m k).isSome = true) :
    (mapGet (runOps m ops) k).isSome = true := by
  induction ops generalizing m with
  | nil => exact h
  | cons op rest ih =>
      show (mapGet (runOps (applyOp m op) rest) k).isSome = true
      have hassign : ∀ k2 v2, (mapGet (jsAssign m k2 v2) k).isSome = true := by
        intro k2 v2
        rw [mapGet_jsAssign]
        by_cases hk : k = k2
        · rw [if_pos hk]; rfl
        · rw [if_neg hk]; exact h
      cases op with
      | set k2 v2 => exact ih (applyOp m (.set k2 v2)) (hassign k2 (some v2))
      | del k2 => exact ih (applyOp m (.del k2)) (hassign k2 none)

theorem mapGet_liftMap (pre : StrMap) (k : String) :
    mapGet (liftMap pre) k = (strGet pre k).map some := by
  induction pre with
  | nil => rfl
  | cons kv rest ih =>
      rw [liftMap, List.map_cons]
      by_cases hk : kv.1 = k
      · rw [mapGet_cons_pos _ _ k hk, strGet,
          List.find?_cons_of_pos rest (by simp [hk])]
        rfl
      · rw [mapGet_cons_neg _ _ k hk, strGet,
          List.find?_cons_of_neg rest (by simp [hk]), ← strGet]
        exact ih

theorem mapKeys_liftMap (pre : StrMap) :
    mapKeys (liftMap pre) = pre.map Prod.fst := by
  rw [mapKeys, liftMap, List.map_map]
  rfl


theorem strGet_cons_pos (kv : String × String) (m : StrMap) (k : String)
    (h : kv.1 = k) : strGet (kv :: m) k = some kv.2 := by
  rw [strGet, List.find?_cons_of_pos m (by simp [h])]
  rfl

theorem strGet_cons_neg (kv : String × String) (m : StrMap) (k : String)
    (h : ¬kv.1 = k) : strGet (kv :: m) k = strGet m k := by
  rw [strGet, List.find?_cons_of_neg m (by simp [h]), strGet]

theorem strGet_isSome_of_mem (pre : StrMap) (kv : String × String)
    (h : kv ∈ pre) : (strGet pre kv.1).isSome = true := by
  induction pre with
  | nil => cases h
  | cons p rest ih =>
      by_cases hk : p.1 = kv.1
      · rw [strGet_cons_pos p rest kv.1 hk]
        rfl
      · rw [strGet_cons_neg p rest kv.1 hk]
        rcases List.mem_cons.mp h with h2 | h2
        · exact absurd (h2 ▸ rfl) hk
        · exact ih h2

theorem strGet_mem_nodup (pre : StrMap) (hnd : (pre.map Prod.fst).Nodup)
    (k : String) (v : String) (h : (k, v) ∈ pre) : strGet pre k = some v := by
  induction pre with
  | nil => cases h
  | cons p rest ih =>
      rw [List.map_cons, List.nodup_cons] at hnd
      rcases List.mem_cons.mp h with h2 | h2
      · rw [← h2]
        exact strGet_cons_pos (k, v) rest k rfl
      · have hk : ¬p.1 = k := by
          intro hc
          refine hnd.1 ?_
          rw [hc]
          exact List.mem_map.mpr ⟨(k, v), h2, rfl⟩
        rw [strGet_cons_neg p rest k hk]
        exact ih hnd.2 h2

theorem mem_keys_addedChanged (pre : StrMap) (post : JsMap) (k : String)
    (h : k ∈ mapKeys (addedChanged pre post)) : k ∈ mapKeys post := by
  rw [mapKeys, addedChanged] at h
  obtain ⟨kv, hkv, hfst⟩ := List.mem_map.mp h
  obtain ⟨kv2, hkv2, hf⟩ := List.mem_filterMap.mp hkv
  have hkeep : kv = kv2 := by
    rcases hsp : strGet pre kv2.1 with _ | pv
    · rw [hsp] at hf
      have hf2 : some kv2 = some kv := hf
      exact (Option.some_inj.mp hf2).symm
    · rw [hsp] at hf
      have hf2 : (if kv2.2 = some pv then none else some kv2) = some kv := hf
      by_cases he : kv2.2 = some pv
      · rw [if_pos he] at hf2
        cases hf2
      · rw [if_neg he] at hf2
        exact (Option.some_inj.mp hf2).symm
  rw [mapKeys]
  exact List.mem_map.mpr ⟨kv2, hkv2, by rw [← hkeep, hfst]⟩

theorem mapGet_addedChanged_none (pre : StrMap) (post : JsMap) (k : String)
    (h : ¬k ∈ mapKeys post) : mapGet (addedChanged pre post) k = none := by
  refine Option.not_isSome_iff_eq_none.mp ?_
  intro hs
  rw [mapGet_isSome_iff] at hs
  exact h (mem_keys_addedChanged pre post k (List.elem_iff.mp hs))

theorem mapGet_addedChanged (pre : StrMap) (post : JsMap) (k : String)
    (hnd : (mapKeys post).Nodup) :
    mapGet (addedChanged pre post) k
      = match mapGet post k with
        | none => none
        | some v =>
            match strGet pre k with
            | none => some v
            | some pv => if v = some pv then none else some v := by
  induction post with
  | nil => rfl
  | cons kv rest ih =>
      rw [mapKeys, List.map_cons, List.nodup_cons] at hnd
      rw [addedChanged, List.filterMap_cons]
      by_cases hk : kv.1 = k
      · rw [mapGet_cons_pos kv rest k hk]
        rcases hsp : strGet pre kv.1 with _ | pv
        · rw [hk] at hsp
          rw [hsp]
          have h1 : (match (none : Option String) with
              | none => some kv
              | some v => if kv.2 = some v then none else some kv) = some kv := rfl
          have h2 : (match (some kv.2 : Option (Option String)) with
              | none => (none : Option (Option String))
              | some v =>
                  match (none : Option String) with
                  | none => some v
                  | some pv => if v = some pv then none else some v)
              = some kv.2 := rfl
          rw [h1, h2]
          exact mapGet_cons_pos kv _ k hk
        · rw [hk] at hsp
          rw [hsp]
          have h1 : (match (some pv : Option String) with
              | none => some kv
              | some v => if kv.2 = some v then none else some kv)
              = (if kv.2 = some pv then none else some kv) := rfl
          have h2 : (match (some kv.2 : Option (Option String)) with
              | none => (none : Option (Option String))
              | some v =>
                  match (some pv : Option String) with
                  | none => some v
                  | some pv => if v = some pv then none else some v)
              = (if kv.2 = some pv then none else some kv.2) := rfl
          rw [h1, h2]
          by_cases he : kv.2 = some pv
          · rw [if_pos he, if_pos he]
            refine mapGet_addedChanged_none pre rest k ?_
            rw [← hk]
            exact hnd.1
          · rw [if_neg he, if_neg he]
            exact mapGet_cons_pos kv _ k hk
      · rw [mapGet_cons_neg kv rest k hk]
        have htail := ih hnd.2
        rcases hsp : strGet pre kv.1 with _ | pv
        · have h1 : (match (none : Option String) with
              | none => some kv
              | some v => if kv.2 = some v then none else some kv) = some kv := rfl
          rw [h1]
          show mapGet (kv :: addedChanged pre rest) k = _
          rw [mapGet_cons_neg kv _ k hk]
          exact htail
        · have h1 : (match (some pv : Option String) with
              | none => some kv
              | some v => if kv.2 = some v then none else some kv)
              = (if kv.2 = some pv then none else some kv) := rfl
          rw [h1]
          by_cases he : kv.2 = some pv
          · rw [if_pos he]
            show mapGet (addedChanged pre rest) k = _
            exact htail
          · rw [if_neg he]
            show mapGet (kv :: addedChanged pre rest) k = _
            rw [mapGet_cons_neg kv _ k hk]
            exact htail

theorem deletedValues_eq_nil (pre : StrMap) (post : JsMap)
    (h : ∀ kv ∈ pre, (mapKeys post).contains kv.1 = true) :
    deletedValues pre post = [] := by
  rw [deletedValues]
  have hfil : pre.filter (fun kv => !(mapKeys post).contains kv.1) = [] := by
    rw [List.filter_eq_nil_iff]
    intro kv hkv
    rw [h kv hkv]
    simp
  rw [hfil]
  rfl


theorem keys_mem_post (pre : StrMap) (ops : List StorageOp)
    (kv : String × String) (h : kv ∈ pre) :
    (mapKeys (runOps (liftMap pre) ops)).contains kv.1 = true := by
  rw [← mapGet_isSome_iff]
  refine mapGet_runOps_isSome _ ops kv.1 ?_
  rw [mapGet_liftMap]
  have := strGet_isSome_of_mem pre kv h
  obtain ⟨w, hw⟩ := Option.isSome_iff_exists.mp this
  rw [hw]
  rfl

theorem storageDiff_get (pre : StrMap) (ops : List StorageOp) (k : String)
    (hnd : (pre.map Prod.fst).Nodup) :
    mapGet (storageDiff pre (runOps (liftMap pre) ops)) k
      = match mapGet (runOps (liftMap pre) ops) k with
        | none => none
        | some v =>
            match strGet pre k with
            | none => some v
            | some pv => if v = some pv then none else some v := by
  rw [storageDiff,
    deletedValues_eq_nil pre _ (fun kv hkv => keys_mem_post pre ops kv hkv),
    List.nil_append]
  refine mapGet_addedChanged pre _ k ?_
  refine nodup_runOps _ ops ?_
  rw [mapKeys_liftMap]
  exact hnd

theorem strGet_none_of_post_none (pre : StrMap) (ops : List StorageOp)
    (k : String) (h : mapGet (runOps (liftMap pre) ops) k = none) :
    strGet pre k = none := by
  cases hs : strGet pre k with
  | none => rfl
  | some v =>
      exfalso
      have hlift : (mapGet (liftMap pre) k).isSome = true := by
        rw [mapGet_liftMap, hs]
        rfl
      have := mapGet_runOps_isSome (liftMap pre) ops k hlift
      rw [h] at this
      cases this

theorem applyDiff_storageDiff (pre : StrMap) (ops : List StorageOp) (k : String)
    (hnd : (pre.map Prod.fst).Nodup) :
    applyDiff pre (storageDiff pre (runOps (liftMap pre) ops)) k
      = obsGet (runOps (liftMap pre) ops) k := by
  rcases hpost : mapGet (runOps (liftMap pre) ops) k with _ | v
  · have hd : mapGet (storageDiff pre (runOps (liftMap pre) ops)) k = none := by
      rw [storageDiff_get pre ops k hnd, hpost]
    rw [applyDiff, hd, obsGet, hpost]
    exact strGet_none_of_post_none pre ops k hpost
  · rcases hs : strGet pre k with _ | pv
    · have hd : mapGet (storageDiff pre (runOps (liftMap pre) ops)) k = some v := by
        rw [storageDiff_get pre ops k hnd, hpost, hs]
      rw [applyDiff, hd, obsGet, hpost]
      cases v <;> rfl
    · by_cases he : v = some pv
      · have hd : mapGet (storageDiff pre (runOps (liftMap pre) ops)) k = none := by
          rw [storageDiff_get pre ops k hnd, hpost, hs]
          exact if_pos he
        rw [applyDiff, hd, obsGet, hpost, hs, he]
        rfl
      · have hd : mapGet (storageDiff pre (runOps (liftMap pre) ops)) k = some v := by
          rw [storageDiff_get pre ops k hnd, hpost, hs]
          exact if_neg he
        rw [applyDiff, hd, obsGet, hpost]
        cases v <;> rfl


/-- C1: for every successful guest run, the reply's storage delta satisfies:
`state = "updated"` exactly when `diff` is non-empty; every key of the
pre-storage snapshot that is absent from the observable post-storage appears
in `diff` with the null tombstone; and applying `diff` to the pre-storage
(null entries deleting their key) yields the post-storage, read pointwise. -/
theorem C1_storage_delta (pre : StrMap) (ops : List StorageOp) (res : Json)
    (hnd : (pre.map Prod.fst).Nodup) (st : StorageDelta)
    (hrun : onFunctionEvent pre ⟨ops, .success res⟩ = GuestReply.result res st) :
    (st.state = "updated" ↔ st.diff ≠ [])
      ∧ (∀ k, (strGet pre k).isSome = true → obsGet st.storage k = none →
          mapGet st.diff k = some none)
      ∧ (∀ k, applyDiff pre st.diff k = obsGet st.storage k) := by
  have hdef : onFunctionEvent pre ⟨ops, .success res⟩
      = GuestReply.result res
          ⟨if (storageDiff pre (runOps (liftMap pre) ops)).isEmpty
              then "last" else "updated",
            runOps (liftMap pre) ops,
            storageDiff pre (runOps (liftMap pre) ops)⟩ := rfl
  rw [hdef] at hrun
  injection hrun with h1 h2
  subst h2
  refine ⟨?_, ?_, ?_⟩
  · show (if (storageDiff pre (runOps (liftMap pre) ops)).isEmpty
        then "last" else "updated") = "updated"
      ↔ storageDiff pre (runOps (liftMap pre) ops) ≠ []
    by_cases he : (storageDiff pre (runOps (liftMap pre) ops)).isEmpty
    · rw [if_pos he, List.isEmpty_iff.mp he]
      constructor
      · intro h
        exact absurd h (by decide)
      · intro h
        exact absurd rfl h
    · rw [if_neg he]
      constructor
      · intro _ hc
        rw [hc] at he
        exact he rfl
      · intro _
        rfl
  · intro k hpre hobs
    show mapGet (storageDiff pre (runOps (liftMap pre) ops)) k = some none
    obtain ⟨pv, hpv⟩ := Option.isSome_iff_exists.mp hpre
    rcases hpost : mapGet (runOps (liftMap pre) ops) k with _ | v
    · exfalso
      have hlift : (mapGet (liftMap pre) k).isSome = true := by
        rw [mapGet_liftMap, hpv]
        rfl
      have hsome := mapGet_runOps_isSome (liftMap pre) ops k hlift
      rw [hpost] at hsome
      cases hsome
    · have hobs2 : obsGet (runOps (liftMap pre) ops) k = none := hobs
      rw [obsGet, hpost] at hobs2
      have hv : v = none := by simpa using hobs2
      subst hv
      rw [storageDiff_get pre ops k hnd, hpost, hpv]
      have hred : (match (some (none : Option String) : Option (Option String)) with
          | none => (none : Option (Option String))
          | some v =>
              match (some pv : Option String) with
              | none => some v
              | some pv => if v = some pv then none else some v)
          = (if (none : Option String) = some pv then none else some none) := rfl
      rw [hred, if_neg (by simp)]
  · intro k
    exact applyDiff_storageDiff pre ops k hnd

/-- C1 witness: a concrete successful run over pre-storage `{a: "1"}` whose
handler sets `b`, instantiating every hypothesis of `C1_storage_delta`. -/
theorem C1_storage_delta_witness :
    ((([("a", "1")] : StrMap).map Prod.fst).Nodup)
      ∧ ((StorageDelta.state
            ⟨"updated", [("a", some "1"), ("b", some "2")], [("b", some "2")]⟩
              = "updated"
          ↔ StorageDelta.diff
            ⟨"updated", [("a", some "1"), ("b", some "2")], [("b", some "2")]⟩
              ≠ [])
        ∧ (∀ k, (strGet [("a", "1")] k).isSome = true →
            obsGet [("a", some "1"), ("b", some "2")] k = none →
            mapGet [("b", some "2")] k = some none)
        ∧ (∀ k, applyDiff [("a", "1")] [("b", some "2")] k
            = obsGet [("a", some "1"), ("b", some "2")] k)) :=
  ⟨by decide,
    C1_storage_delta [("a", "1")] [.set "b" "2"] .null (by decide)
      ⟨"updated", [("a", some "1"), ("b", some "2")], [("b", some "2")]⟩ rfl⟩

/-- C4: a guest run whose handler throws replies with an error event whose
storage block carries `state = "last"`, the untouched pre-invocation
snapshot, and an empty diff — whatever storage mutations the handler
performed before throwing. -/
theorem C4_error_reply_snapshot (pre : StrMap) (ops : List StorageOp)
    (name message : String) :
    onFunctionEvent pre ⟨ops, .thrown name message⟩
      = GuestReply.error ⟨name, name ++ ": " ++ message⟩
          ⟨"last", liftMap pre, []⟩ := rfl

/-- C10: a handler that only calls `storage.delete(k)` for a key `k` absent
from the incoming storage still gets a diff `{k: null}` and
`state = "updated"` in its successful reply. -/
theorem C10_delete_absent (pre : StrMap) (k : String) (res : Json)
    (hnd : (pre.map Prod.fst).Nodup) (habs : strGet pre k = none)
    (st : StorageDelta)
    (hrun : onFunctionEvent pre ⟨[.del k], .success res⟩
      = GuestReply.result res st) :
    st.diff = [(k, none)] ∧ st.state = "updated" := by
  have hcontains : (mapKeys (liftMap pre)).contains k = false := by
    rw [← mapGet_isSome_iff, mapGet_liftMap, habs]
    rfl
  have hpost : runOps (liftMap pre) [.del k] = liftMap pre ++ [(k, none)] := by
    show jsAssign (liftMap pre) k none = _
    rw [jsAssign, if_neg (by rw [hcontains]; exact Bool.false_ne_true)]
  have hdel : deletedValues pre (liftMap pre ++ [(k, none)]) = [] := by
    refine deletedValues_eq_nil pre _ ?_
    intro kv hkv
    rw [← mapGet_isSome_iff, mapGet_append, mapGet_liftMap]
    have := strGet_isSome_of_mem pre kv hkv
    obtain ⟨w, hw⟩ := Option.isSome_iff_exists.mp this
    rw [hw]
    rfl
  have hfm1 : (liftMap pre).filterMap (fun kv =>
      match strGet pre kv.1 with
      | none => some kv
      | some v => if kv.2 = some v then none else some kv) = [] := by
    rw [List.filterMap_eq_nil_iff]
    intro kv hkv
    obtain ⟨p, hp, hpe⟩ := List.mem_map.mp hkv
    have hg : strGet pre p.1 = some p.2 :=
      strGet_mem_nodup pre hnd p.1 p.2 (by simpa using hp)
    rw [← hpe, hg]
    have hred2 : (match (some p.2 : Option String) with
        | none => some ((p.1, some p.2) : String × Option String)
        | some v => if ((p.1, some p.2) : String × Option String).2 = some v
            then none else some (p.1, some p.2))
        = (if some p.2 = some p.2 then none else some ((p.1, some p.2) :
            String × Option String)) := rfl
    rw [hred2, if_pos rfl]
  have hdiff : storageDiff pre (runOps (liftMap pre) [.del k]) = [(k, none)] := by
    rw [hpost, storageDiff, hdel, List.nil_append, addedChanged,
      List.filterMap_append, hfm1, List.nil_append]
    have hred : ([((k, none) : String × Option String)].filterMap (fun kv =>
        match strGet pre kv.1 with
        | none => some kv
        | some v => if kv.2 = some v then none else some kv))
        = match strGet pre k with
          | none => [(k, none)]
          | some v => if (none : Option String) = some v then [] else [(k, none)] := by
      rw [List.filterMap_cons]
      rcases hs : strGet pre k with _ | v
      · rfl
      · rfl
    rw [hred, habs]
  have hdef : onFunctionEvent pre ⟨[.del k], .success res⟩
      = GuestReply.result res
          ⟨if (storageDiff pre (runOps (liftMap pre) [.del k])).isEmpty
              then "last" else "updated",
            runOps (liftMap pre) [.del k],
            storageDiff pre (runOps (liftMap pre) [.del k])⟩ := rfl
  rw [hdef] at hrun
  injection hrun with h1 h2
  subst h2
  refine ⟨hdiff, ?_⟩
  show (if (storageDiff pre (runOps (liftMap pre) [.del k])).isEmpty
      then "last" else "updated") = "updated"
  rw [hdiff]
  rfl

/-- C10 witness: deleting the absent key `b` over pre-storage `{a: "1"}`. -/
theorem C10_delete_absent_witness :
    ((([("a", "1")] : StrMap).map Prod.fst).Nodup)
      ∧ strGet [("a", "1")] "b" = none
      ∧ (StorageDelta.diff ⟨"updated", [("a", some "1"), ("b", none)], [("b", none)]⟩
            = [("b", none)]
          ∧ StorageDelta.state ⟨"updated", [("a", some "1"), ("b", none)], [("b", none)]⟩
            = "updated") :=
  ⟨by decide, by decide,
    C10_delete_absent [("a", "1")] "b" .null (by decide) (by decide)
      ⟨"updated", [("a", some "1"), ("b", none)], [("b", none)]⟩ rfl⟩


/-! ## Validator claim theorems -/

theorem objGet_cons_pos (kv : String × Json) (o : JsObj) (k : String)
    (h : kv.1 = k) : objGet (kv :: o) k = some kv.2 := by
  rw [objGet, List.find?_cons_of_pos o (by simp [h])]
  rfl

theorem objGet_cons_neg (kv : String × Json) (o : JsObj) (k : String)
    (h : ¬kv.1 = k) : objGet (kv :: o) k = objGet o k := by
  rw [objGet, List.find?_cons_of_neg o (by simp [h]), objGet]

theorem objGet_isSome_iff (o : JsObj) (k : String) :
    (objGet o k).isSome = (objKeys o).contains k := by
  induction o with
  | nil => rfl
  | cons kv rest ih =>
      rw [objKeys, List.map_cons, List.contains_cons]
      by_cases hk : kv.1 = k
      · rw [objGet_cons_pos kv rest k hk]
        simp [hk]
      · rw [objGet_cons_neg kv rest k hk, ih, objKeys]
        have hbeq : (k == kv.1) = false := by
          simp only [beq_eq_false_iff_ne, ne_eq]
          exact fun hc => hk hc.symm
        rw [hbeq, Bool.false_or]

theorem isValidData_iff (cd : Json) :
    isValidData cd = true
      ↔ ∃ s, cd = Json.str s ∧ 10 ≤ s.length ∧ s.take 2 = "0x" := by
  cases cd with
  | str s =>
      simp only [isValidData, Bool.and_eq_true, decide_eq_true_eq, Json.str.injEq]
      constructor
      · intro ⟨h1, h2⟩
        exact ⟨s, rfl, h1, h2⟩
      · intro ⟨s2, he, h1, h2⟩
        subst he
        exact ⟨h1, h2⟩
  | null => simp [isValidData]
  | bool b => simp [isValidData]
  | num n => simp [isValidData]
  | arr xs => simp [isValidData]
  | obj kvs => simp [isValidData]

/-- C2: for a V1 result whose `canExec` is `true`, validation succeeds
exactly when `callData` is present, is a string, has length at least 10 and
begins with `0x`; equivalently a validation error is raised unless those
hold — in particular any non-string `callData` is rejected. -/
theorem C2_v1_callData (result : JsObj)
    (hce : objGet result "canExec" = some (Json.bool true)) :
    validateResult .v1 result = .ok ()
      ↔ ∃ s, objGet result "callData" = some (Json.str s)
          ∧ 10 ≤ s.length ∧ s.take 2 = "0x" := by
  have hck : (objKeys result).contains "canExec" = true := by
    rw [← objGet_isSome_iff, hce]
    rfl
  have htr : jsTruthy (objGetD result "canExec") = true := by
    rw [objGetD, hce]
    rfl
  rw [validateResult, if_neg (by rw [hck]; simp)]
  by_cases hcd : (objKeys result).contains "callData"
  · rw [if_neg (by rw [htr, hcd]; simp)]
    have hcds : (objGet result "callData").isSome = true := by
      rw [objGet_isSome_iff, hcd]
    obtain ⟨cd, hcdv⟩ := Option.isSome_iff_exists.mp hcds
    show (if jsTruthy (objGetD result "canExec")
          && !isValidData (objGetD result "callData")
        then Except.error (vErr result "returned invalid callData")
        else Except.ok ())
      = Except.ok () ↔ _
    rw [htr, objGetD, hcdv, Option.getD_some]
    by_cases hval : isValidData cd
    · rw [hval]
      simp only [Bool.not_true, Bool.and_false, Bool.false_eq_true, if_false]
      obtain ⟨s, hs, h1, h2⟩ := isValidData_iff cd |>.mp hval
      subst hs
      exact ⟨fun _ => ⟨s, rfl, h1, h2⟩, fun _ => trivial⟩
    · rw [show isValidData cd = false by simpa using hval]
      simp only [Bool.not_false, Bool.and_true, if_true]
      constructor
      · intro h
        cases h
      · intro ⟨s, hs, h1, h2⟩
        have hcd2 : cd = Json.str s := Option.some_inj.mp hs
        subst hcd2
        exact absurd (isValidData_iff _ |>.mpr ⟨s, rfl, h1, h2⟩) hval
  · rw [if_pos (by rw [htr, show ((objKeys result).contains "callData") = false by
        simpa using hcd]; simp)]
    constructor
    · intro h
      cases h
    · intro ⟨s, hs, h1, h2⟩
      exfalso
      have hsome : (objGet result "callData").isSome = true := by rw [hs]; rfl
      rw [objGet_isSome_iff] at hsome
      exact hcd hsome

/-- C2 witness: a concrete V1 result with `canExec = true` and a valid
10-character hex `callData`. -/
theorem C2_v1_callData_witness :
    objGet [("canExec", Json.bool true), ("callData", Json.str "0x12345678")]
        "canExec" = some (Json.bool true)
      ∧ (validateResult .v1
          [("canExec", Json.bool true), ("callData", Json.str "0x12345678")]
          = .ok ()
        ↔ ∃ s, objGet [("canExec", Json.bool true),
              ("callData", Json.str "0x12345678")] "callData"
            = some (Json.str s) ∧ 10 ≤ s.length ∧ s.take 2 = "0x") :=
  ⟨rfl, C2_v1_callData
    [("canExec", Json.bool true), ("callData", Json.str "0x12345678")] rfl⟩


theorem checkEntries_error_of_mem (result : JsObj) (entries : List Json)
    (e : Json) (he : e ∈ entries) (m : String)
    (hm : checkCallDataEntry result e = .error m) :
    ∃ m2, checkEntries result entries = .error m2 := by
  induction entries with
  | nil => cases he
  | cons x xs ih =>
      rw [checkEntries]
      cases hcx : checkCallDataEntry result x with
      | error m3 => exact ⟨m3, rfl⟩
      | ok u =>
          rcases List.mem_cons.mp he with hx | hx
          · subst hx
            rw [hm] at hcx
            cases hcx
          · exact ih hx

/-- C3 counterexample: a V2 entry whose `value` key is present and holds the
empty string — which does not match `/^\d+$/` — is nevertheless accepted,
because the source guards the check with the truthiness test `if (value)`
and the empty string is falsy.  This refutes the claim that a present
`value` raises an error unless it is a non-empty decimal-digit string. -/
theorem C3_counterexample :
    jsField (Json.obj [("to",
        Json.str "0x0000000000000000000000000000000000000001"),
        ("data", Json.str "0x12345678"), ("value", Json.str "")]) "value"
        = Json.str ""
      ∧ isNumericString "" = false
      ∧ validateResult .v2
          [("canExec", Json.bool true),
           ("callData", Json.arr [Json.obj [("to",
              Json.str "0x0000000000000000000000000000000000000001"),
             ("data", Json.str "0x12345678"), ("value", Json.str "")]])]
          = .ok () :=
  ⟨rfl, rfl, rfl⟩

/-- C3 (amended): for a V2 result with `canExec = true` and `callData` an
array, any entry whose `value` is truthy (in particular any non-empty
string) and whose string coercion fails `/^\d+$/` makes `_validateResult`
raise a validation error.  A present but falsy `value` — the empty string —
is skipped by the `if (value)` guard and accepted, as the counterexample
shows. -/
theorem C3_value_check (result : JsObj) (entries : List Json) (e : Json)
    (hce : objGet result "canExec" = some (Json.bool true))
    (hcd : objGet result "callData" = some (Json.arr entries))
    (he : e ∈ entries)
    (htr : jsTruthy (jsField e "value") = true)
    (hnum : isNumericString (jsToString (jsField e "value")) = false) :
    ∃ m, validateResult .v2 result = .error m := by
  have hentry : ∃ m, checkCallDataEntry result e = .error m := by
    rw [checkCallDataEntry]
    by_cases h1 : isAddress (jsField e "to")
    · rw [if_neg (by rw [h1]; simp)]
      by_cases h2 : isValidData (jsField e "data")
      · rw [if_neg (by rw [h2]; simp)]
        rw [if_pos (by rw [htr, hnum]; simp)]
        exact ⟨_, rfl⟩
      · rw [if_pos (by
          rw [show isValidData (jsField e "data") = false by simpa using h2]
          simp)]
        exact ⟨_, rfl⟩
    · rw [if_pos (by
        rw [show isAddress (jsField e "to") = false by simpa using h1]
        simp)]
      exact ⟨_, rfl⟩
  have hck : (objKeys result).contains "canExec" = true := by
    rw [← objGet_isSome_iff, hce]
    rfl
  have htr2 : jsTruthy (objGetD result "canExec") = true := by
    rw [objGetD, hce]
    rfl
  have hcdk : (objKeys result).contains "callData" = true := by
    rw [← objGet_isSome_iff, hcd]
    rfl
  rw [validateResult, if_neg (by rw [hck]; simp),
    if_neg (by rw [htr2, hcdk]; simp), if_pos htr2, objGetD, hcd,
    Option.getD_some]
  obtain ⟨m, hm⟩ := hentry
  exact checkEntries_error_of_mem result entries e he m hm

/-- C3 witness: a concrete V2 result with a truthy, non-numeric `value`
(`"abc"`), instantiating every hypothesis of `C3_value_check`. -/
theorem C3_value_check_witness :
    ∃ m, validateResult .v2
        [("canExec", Json.bool true),
         ("callData", Json.arr [Json.obj [("to",
            Json.str "0x0000000000000000000000000000000000000001"),
           ("data", Json.str "0x12345678"), ("value", Json.str "abc")]])]
        = .error m :=
  C3_value_check
    [("canExec", Json.bool true),
     ("callData", Json.arr [Json.obj [("to",
        Json.str "0x0000000000000000000000000000000000000001"),
       ("data", Json.str "0x12345678"), ("value", Json.str "abc")]])]
    [Json.obj [("to", Json.str "0x0000000000000000000000000000000000000001"),
      ("data", Json.str "0x12345678"), ("value", Json.str "abc")]]
    (Json.obj [("to", Json.str "0x0000000000000000000000000000000000000001"),
      ("data", Json.str "0x12345678"), ("value", Json.str "abc")])
    rfl rfl (by simp) rfl rfl

/-- C8: any result object carrying `canExec = false` passes validation in
both versions regardless of `callData`; any result object missing the
`canExec` key raises a validation error. -/
theorem C8_canExec (version : W3FVersion) (result : JsObj) :
    (objGet result "canExec" = some (Json.bool false) →
        validateResult version result = .ok ())
      ∧ (objGet result "canExec" = none →
        ∃ m, validateResult version result = .error m) := by
  constructor
  · intro hce
    have hck : (objKeys result).contains "canExec" = true := by
      rw [← objGet_isSome_iff, hce]
      rfl
    have htr : jsTruthy (objGetD result "canExec") = false := by
      rw [objGetD, hce]
      rfl
    rw [validateResult.eq_def, if_neg (by rw [hck]; simp),
      if_neg (by rw [htr]; simp)]
    cases version with
    | v1 => simp [htr]
    | v2 => simp [htr]
  · intro hce
    have hck : (objKeys result).contains "canExec" = false := by
      rw [← objGet_isSome_iff, hce]
      rfl
    rw [validateResult.eq_def, if_pos (by rw [hck]; simp)]
    exact ⟨_, rfl⟩

/-- C8 witness: a `canExec = false` result with junk `callData` is accepted,
and the empty result object is rejected. -/
theorem C8_canExec_witness :
    validateResult .v1 [("canExec", Json.bool false), ("callData", Json.num 42)]
        = .ok ()
      ∧ ∃ m, validateResult .v2 [] = .error m :=
  ⟨(C8_canExec .v1 [("canExec", Json.bool false), ("callData", Json.num 42)]).1
      rfl,
    (C8_canExec .v2 []).2 rfl⟩


/-! ## Runner claim theorems -/

theorem setReason_networkRequest (t : Throttled) (r : ThrottledReason) :
    (setReason t r).networkRequest = t.networkRequest := by
  cases r <;> rfl

theorem setReason_download (t : Throttled) (r : ThrottledReason) :
    (setReason t r).download = t.download := by
  cases r <;> rfl

theorem setReason_upload (t : Throttled) (r : ThrottledReason) :
    (setReason t r).upload = t.upload := by
  cases r <;> rfl

theorem setReason_storage (t : Throttled) (r : ThrottledReason) :
    (setReason t r).storage = t.storage := by
  cases r <;> rfl

theorem networkThrottled_networkRequest (options : RunnerOptions)
    (stats : NetworkStats) :
    ((networkThrottled options stats).networkRequest = some true)
      ↔ 0 < stats.nbThrottled ∧ options.requestLimit ≤ stats.nbRequests := by
  rw [networkThrottled]
  by_cases h : stats.nbThrottled > 0
  · rw [if_pos h]
    simp [h, ge_iff_le]
  · rw [if_neg h]
    constructor
    · intro hc
      cases hc
    · intro ⟨h1, _⟩
      exact absurd h1 h

theorem networkThrottled_download (options : RunnerOptions)
    (stats : NetworkStats) :
    ((networkThrottled options stats).download = some true)
      ↔ 0 < stats.nbThrottled ∧ options.downloadLimit / 1024 ≤ stats.download := by
  rw [networkThrottled]
  by_cases h : stats.nbThrottled > 0
  · rw [if_pos h]
    simp [h, ge_iff_le]
  · rw [if_neg h]
    constructor
    · intro hc
      cases hc
    · intro ⟨h1, _⟩
      exact absurd h1 h

theorem networkThrottled_upload (options : RunnerOptions)
    (stats : NetworkStats) :
    ((networkThrottled options stats).upload = some true)
      ↔ 0 < stats.nbThrottled ∧ options.uploadLimit / 1024 ≤ stats.upload := by
  rw [networkThrottled]
  by_cases h : stats.nbThrottled > 0
  · rw [if_pos h]
    simp [h, ge_iff_le]
  · rw [if_neg h]
    constructor
    · intro hc
      cases hc
    · intro ⟨h1, _⟩
      exact absurd h1 h

theorem networkThrottled_storage (options : RunnerOptions)
    (stats : NetworkStats) :
    (networkThrottled options stats).storage = none := by
  rw [networkThrottled]
  by_cases h : stats.nbThrottled > 0
  · rw [if_pos h]
  · rw [if_neg h]

theorem runReport_ok (version : W3FVersion) (options : RunnerOptions)
    (sandboxOutcome : Except RunError (JsObj × RunnerStorage))
    (logs : List String) (duration memoryMb : ℚ) (rpcCalls : RpcStats)
    (stats : NetworkStats) (res : JsObj) (stoS : StorageWithSize)
    (h : runAttempt version sandboxOutcome = .ok (res, stoS)) :
    runReport version options sandboxOutcome logs duration memoryMb rpcCalls
        stats
      = { success := true, version := version, result := some (.obj res),
          storage := some stoS, logs := logs, duration := duration,
          memory := memoryMb, rpcCalls := rpcCalls, network := stats,
          throttled :=
            if stoS.state = "updated" then
              { networkThrottled options stats with
                  storage := some (decide (stoS.size > options.storageLimit)) }
            else networkThrottled options stats } := by
  rw [runReport, h]

theorem runReport_error_runtime (version : W3FVersion)
    (options : RunnerOptions)
    (sandboxOutcome : Except RunError (JsObj × RunnerStorage))
    (logs : List String) (duration memoryMb : ℚ) (rpcCalls : RpcStats)
    (stats : NetworkStats) (m : String) (r : ThrottledReason)
    (h : runAttempt version sandboxOutcome = .error (.runtime m r)) :
    runReport version options sandboxOutcome logs duration memoryMb rpcCalls
        stats
      = { success := false, version := version,
          error := some (.runtime m r), logs := logs, duration := duration,
          memory := memoryMb, rpcCalls := rpcCalls, network := stats,
          throttled := setReason (networkThrottled options stats) r } := by
  rw [runReport, h]

theorem runReport_error_guest (version : W3FVersion)
    (options : RunnerOptions)
    (sandboxOutcome : Except RunError (JsObj × RunnerStorage))
    (logs : List String) (duration memoryMb : ℚ) (rpcCalls : RpcStats)
    (stats : NetworkStats) (n m : String)
    (h : runAttempt version sandboxOutcome = .error (.guest n m)) :
    runReport version options sandboxOutcome logs duration memoryMb rpcCalls
        stats
      = { success := false, version := version, error := some (.guest n m),
          logs := logs, duration := duration, memory := memoryMb,
          rpcCalls := rpcCalls, network := stats,
          throttled := networkThrottled options stats } := by
  rw [runReport, h]

theorem runReport_error_generic (version : W3FVersion)
    (options : RunnerOptions)
    (sandboxOutcome : Except RunError (JsObj × RunnerStorage))
    (logs : List String) (duration memoryMb : ℚ) (rpcCalls : RpcStats)
    (stats : NetworkStats) (m : String)
    (h : runAttempt version sandboxOutcome = .error (.generic m)) :
    runReport version options sandboxOutcome logs duration memoryMb rpcCalls
        stats
      = { success := false, version := version, error := some (.generic m),
          logs := logs, duration := duration, memory := memoryMb,
          rpcCalls := rpcCalls, network := stats,
          throttled := networkThrottled options stats } := by
  rw [runReport, h]

/-- C5: in every report, the `networkRequest` flag is `true` exactly when
`nbThrottled > 0` and `nbRequests ≥ requestLimit`; `download` (resp.
`upload`) is `true` exactly when `nbThrottled > 0` and the transferred
kilobytes reach the byte limit divided by 1024; and the `storage` flag is
`true` exactly when the run succeeded with storage state `"updated"` and a
size strictly above `storageLimit`. -/
theorem C5_throttle_flags (version : W3FVersion) (options : RunnerOptions)
    (sandboxOutcome : Except RunError (JsObj × RunnerStorage))
    (logs : List String) (duration memoryMb : ℚ) (rpcCalls : RpcStats)
    (stats : NetworkStats) :
    ((runReport version options sandboxOutcome logs duration memoryMb rpcCalls
          stats).throttled.networkRequest = some true
        ↔ 0 < stats.nbThrottled ∧ options.requestLimit ≤ stats.nbRequests)
      ∧ ((runReport version options sandboxOutcome logs duration memoryMb
          rpcCalls stats).throttled.download = some true
        ↔ 0 < stats.nbThrottled
            ∧ options.downloadLimit / 1024 ≤ stats.download)
      ∧ ((runReport version options sandboxOutcome logs duration memoryMb
          rpcCalls stats).throttled.upload = some true
        ↔ 0 < stats.nbThrottled ∧ options.uploadLimit / 1024 ≤ stats.upload)
      ∧ ((runReport version options sandboxOutcome logs duration memoryMb
          rpcCalls stats).throttled.storage = some true
        ↔ (runReport version options sandboxOutcome logs duration memoryMb
              rpcCalls stats).success = true
          ∧ ∃ st, (runReport version options sandboxOutcome logs duration
                memoryMb rpcCalls stats).storage = some st
              ∧ st.state = "updated" ∧ options.storageLimit < st.size) := by
  cases hatt : runAttempt version sandboxOutcome with
  | ok p =>
      rcases p with ⟨res, stoS⟩
      have hrep := runReport_ok version options sandboxOutcome logs duration
        memoryMb rpcCalls stats res stoS hatt
      have hthr : (runReport version options sandboxOutcome logs duration
          memoryMb rpcCalls stats).throttled
          = if stoS.state = "updated" then
              { networkThrottled options stats with
                  storage := some (decide (stoS.size > options.storageLimit)) }
            else networkThrottled options stats := by
        rw [hrep]
      have hsucc : (runReport version options sandboxOutcome logs duration
          memoryMb rpcCalls stats).success = true := by
        rw [hrep]
      have hsto : (runReport version options sandboxOutcome logs duration
          memoryMb rpcCalls stats).storage = some stoS := by
        rw [hrep]
      rw [hthr, hsucc, hsto]
      by_cases hupd : stoS.state = "updated"
      · rw [if_pos hupd]
        refine ⟨networkThrottled_networkRequest options stats,
          networkThrottled_download options stats,
          networkThrottled_upload options stats, ?_⟩
        show some (decide (stoS.size > options.storageLimit)) = some true ↔ _
        constructor
        · intro h
          have hgt : options.storageLimit < stoS.size := by
            have h2 := Option.some_inj.mp h
            simpa using h2
          exact ⟨rfl, stoS, rfl, hupd, hgt⟩
        · intro ⟨_, st, hst, _, hgt⟩
          have hst2 : stoS = st := Option.some_inj.mp hst
          subst hst2
          simp [hgt]
      · rw [if_neg hupd]
        refine ⟨networkThrottled_networkRequest options stats,
          networkThrottled_download options stats,
          networkThrottled_upload options stats, ?_⟩
        rw [networkThrottled_storage]
        constructor
        · intro hc
          cases hc
        · intro ⟨_, st, hst, hstate, _⟩
          have hst2 : stoS = st := Option.some_inj.mp hst
          subst hst2
          exact absurd hstate hupd
  | error e =>
      have hfields : (runReport version options sandboxOutcome logs duration
            memoryMb rpcCalls stats).throttled.networkRequest
              = (networkThrottled options stats).networkRequest
          ∧ (runReport version options sandboxOutcome logs duration memoryMb
              rpcCalls stats).throttled.download
              = (networkThrottled options stats).download
          ∧ (runReport version options sandboxOutcome logs duration memoryMb
              rpcCalls stats).throttled.upload
              = (networkThrottled options stats).upload
          ∧ (runReport version options sandboxOutcome logs duration memoryMb
              rpcCalls stats).throttled.storage
              = (networkThrottled options stats).storage
          ∧ (runReport version options sandboxOutcome logs duration memoryMb
              rpcCalls stats).success = false := by
        cases e with
        | runtime m r =>
            have hrep := runReport_error_runtime version options sandboxOutcome
              logs duration memoryMb rpcCalls stats m r hatt
            rw [hrep]
            exact ⟨setReason_networkRequest _ r, setReason_download _ r,
              setReason_upload _ r, setReason_storage _ r, rfl⟩
        | guest n m =>
            have hrep := runReport_error_guest version options sandboxOutcome
              logs duration memoryMb rpcCalls stats n m hatt
            rw [hrep]
            exact ⟨rfl, rfl, rfl, rfl, rfl⟩
        | generic m =>
            have hrep := runReport_error_generic version options sandboxOutcome
              logs duration memoryMb rpcCalls stats m hatt
            rw [hrep]
            exact ⟨rfl, rfl, rfl, rfl, rfl⟩
      rw [hfields.1, hfields.2.1, hfields.2.2.1, hfields.2.2.2.1,
        hfields.2.2.2.2, networkThrottled_storage]
      refine ⟨networkThrottled_networkRequest options stats,
        networkThrottled_download options stats,
        networkThrottled_upload options stats, ?_⟩
      constructor
      · intro hc
        cases hc
      · intro ⟨hs, _⟩
        cases hs


/-- C6: a sandbox exit with signal 250 before any result event is classified
as the RPC-throttle runtime error, and the resulting report carries
`success = false` and `throttled.rpcRequest = true`. -/
theorem C6_exit_250 (version : W3FVersion) (options : RunnerOptions)
    (memory : Nat) (logs : List String) (duration memoryMb : ℚ)
    (rpcCalls : RpcStats) (stats : NetworkStats) :
    (runReport version options (.error (classifyExit options 250 memory)) logs
        duration memoryMb rpcCalls stats).success = false
      ∧ (runReport version options (.error (classifyExit options 250 memory))
          logs duration memoryMb rpcCalls stats).throttled.rpcRequest
        = some true := by
  have hclass : classifyExit options 250 memory
      = RunError.runtime ("Web3Function exited with code="
          ++ (⟨natDigits 250⟩ : String)
          ++ " (RPC requests limit exceeded)") .rpcRequest := by
    rw [classifyExit, if_neg (by decide), if_pos rfl]
  have hatt : runAttempt version (.error (classifyExit options 250 memory))
      = .error (RunError.runtime ("Web3Function exited with code="
          ++ (⟨natDigits 250⟩ : String)
          ++ " (RPC requests limit exceeded)") .rpcRequest) := by
    rw [hclass]
    rfl
  have hrep := runReport_error_runtime version options
    (.error (classifyExit options 250 memory)) logs duration memoryMb rpcCalls
    stats _ .rpcRequest hatt
  constructor
  · rw [hrep]
  · rw [hrep]
    rfl

/-- C7 counterexample: for the returned storage map `{"k": "v"}` with state
`"updated"` and diff `{"k": "v"}`, the recorded size is `56/1024` KB — the
byte length of the serialised whole `{state, storage, diff}` object — while
the serialised storage map alone is 9 bytes, so the claimed size
`9/1024 ≈ 0.01` KB is wrong. -/
theorem C7_counterexample :
    ((runReport .v2 ⟨.thread, 0, 0, 0, 0, 0⟩
        (.ok ([("canExec", Json.bool false)],
          ⟨"updated", [("k", "v")], [("k", some "v")]⟩))
        [] 0 0 ⟨0, 0⟩ ⟨0, 0, 0, 0⟩).storage.map StorageWithSize.size
      = some (storageSize ⟨"updated", [("k", "v")], [("k", some "v")]⟩))
    ∧ storageSize ⟨"updated", [("k", "v")], [("k", some "v")]⟩
      = (56 : ℚ) / 1024
    ∧ (jsonStringify (Json.obj [("k", Json.str "v")])).utf8ByteSize = 9
    ∧ (56 : ℚ) / 1024 ≠ (9 : ℚ) / 1024 := by
  refine ⟨rfl, ?_, by decide, by norm_num⟩
  show ((jsonStringify (storageToJson ⟨"updated", [("k", "v")],
      [("k", some "v")]⟩)).utf8ByteSize : ℚ) / 1024 = (56 : ℚ) / 1024
  have hb : (jsonStringify (storageToJson ⟨"updated", [("k", "v")],
      [("k", some "v")]⟩)).utf8ByteSize = 56 := by decide
  rw [hb]
  norm_num

/-- C7 (amended): on every successful run the report's storage size equals
the byte length of the JSON serialisation of the whole received storage
object `{state, storage, diff}` divided by 1024 — not of the storage map
alone, as the counterexample shows. -/
theorem C7_storage_size (version : W3FVersion) (options : RunnerOptions)
    (res : JsObj) (sto : RunnerStorage) (logs : List String)
    (duration memoryMb : ℚ) (rpcCalls : RpcStats) (stats : NetworkStats)
    (st : StorageWithSize)
    (h : (runReport version options (.ok (res, sto)) logs duration memoryMb
        rpcCalls stats).storage = some st) :
    st.size
      = ((jsonStringify (storageToJson sto)).utf8ByteSize : ℚ) / 1024 := by
  cases hval : validateResult version res with
  | error m =>
      have hatt : runAttempt version (.ok (res, sto))
          = .error (.generic m) := by
        rw [runAttempt, hval]
      have hrep := runReport_error_generic version options (.ok (res, sto))
        logs duration memoryMb rpcCalls stats m hatt
      rw [hrep] at h
      simp at h
  | ok u =>
      have hatt : runAttempt version (.ok (res, sto))
          = .ok (res, ⟨sto.state, sto.storage, sto.diff, storageSize sto⟩) := by
        rw [runAttempt, hval]
      have hrep := runReport_ok version options (.ok (res, sto)) logs duration
        memoryMb rpcCalls stats res
        ⟨sto.state, sto.storage, sto.diff, storageSize sto⟩ hatt
      rw [hrep] at h
      have h2 : some (⟨sto.state, sto.storage, sto.diff, storageSize sto⟩ :
          StorageWithSize) = some st := h
      rw [← Option.some_inj.mp h2]
      rfl

/-- C7 witness: the concrete successful run of the counterexample,
instantiating the hypothesis of `C7_storage_size`. -/
theorem C7_storage_size_witness :
    (runReport .v2 ⟨.thread, 0, 0, 0, 0, 0⟩
        (.ok ([("canExec", Json.bool false)],
          ⟨"updated", [("k", "v")], [("k", some "v")]⟩))
        [] 0 0 ⟨0, 0⟩ ⟨0, 0, 0, 0⟩).storage
      = some ⟨"updated", [("k", "v")], [("k", some "v")],
          storageSize ⟨"updated", [("k", "v")], [("k", some "v")]⟩⟩
    ∧ StorageWithSize.size
        ⟨"updated", [("k", "v")], [("k", some "v")],
          storageSize ⟨"updated", [("k", "v")], [("k", some "v")]⟩⟩
      = ((jsonStringify (storageToJson ⟨"updated", [("k", "v")],
          [("k", some "v")]⟩)).utf8ByteSize : ℚ) / 1024 :=
  ⟨rfl,
    C7_storage_size .v2 ⟨.thread, 0, 0, 0, 0, 0⟩
      [("canExec", Json.bool false)] ⟨"updated", [("k", "v")], [("k", some "v")]⟩
      [] 0 0 ⟨0, 0⟩ ⟨0, 0, 0, 0⟩
      ⟨"updated", [("k", "v")], [("k", some "v")],
        storageSize ⟨"updated", [("k", "v")], [("k", some "v")]⟩⟩ rfl⟩


/-! ## User-args claim theorems -/

theorem parseUserArgs_lookup (schema : List (String × W3FArgType))
    (args : JsObj)
    (h1 : ∀ p ∈ schema,
      ∃ j, objGet args p.1 = some j ∧ checkArgType p.2 j = true)
    (h2 : ∀ kv ∈ args, kv.1 ∈ schema.map Prod.fst) (k : String) :
    objGet (schema.map (fun p => (p.1, (objGet args p.1).getD .null))) k
      = objGet args k := by
  by_cases hk : k ∈ schema.map Prod.fst
  · clear h2
    induction schema with
    | nil => simp at hk
    | cons p rest ih =>
        rw [List.map_cons]
        by_cases hpk : p.1 = k
        · rw [objGet_cons_pos _ _ k hpk, ← hpk]
          obtain ⟨j, hj, -⟩ := h1 p (by simp)
          rw [hj]
          rfl
        · rw [objGet_cons_neg _ _ k hpk]
          refine ih (fun q hq => h1 q (by simp [hq])) ?_
          rw [List.map_cons] at hk
          rcases List.mem_cons.mp hk with hc | hc
          · exact absurd hc.symm hpk
          · exact hc
  · have hl : objGet (schema.map
        (fun p => (p.1, (objGet args p.1).getD .null))) k = none := by
      refine Option.not_isSome_iff_eq_none.mp ?_
      rw [objGet_isSome_iff]
      intro hc
      have hmem := List.elem_iff.mp hc
      rw [objKeys, List.map_map] at hmem
      refine hk ?_
      obtain ⟨p, hp, hpe⟩ := List.mem_map.mp hmem
      exact List.mem_map.mpr ⟨p, hp, hpe⟩
    have hr : objGet args k = none := by
      refine Option.not_isSome_iff_eq_none.mp ?_
      rw [objGet_isSome_iff]
      intro hc
      have hmem := List.elem_iff.mp hc
      rw [objKeys] at hmem
      obtain ⟨kv, hkv, hke⟩ := List.mem_map.mp hmem
      refine hk ?_
      rw [← hke]
      exact h2 kv hkv
    rw [hl, hr]

/-- C9 counterexample: the map `{a: 1, x: 2}` is well-typed for the schema
`{a: number}` in the claim's sense — each schema key is present with the
declared type — yet `parseUserArgs` iterates over the schema keys only, so
`parseUserArgs ∘ stringify` drops the extra key `x` and does not return the
original map. -/
theorem C9_counterexample :
    (∀ p ∈ [(("a" : String), W3FArgType.number)],
        ∃ j, objGet [("a", Json.num 1), ("x", Json.num 2)] p.1 = some j
          ∧ checkArgType p.2 j = true)
      ∧ parseUserArgs [("a", W3FArgType.number)]
          (stringifyArgs [("a", Json.num 1), ("x", Json.num 2)])
        = .ok [("a", Json.num 1)]
      ∧ objGet [(("a" : String), Json.num 1)] "x" = none
      ∧ objGet [("a", Json.num 1), ("x", Json.num 2)] "x"
        = some (Json.num 2) := by
  refine ⟨?_, rfl, rfl, rfl⟩
  intro p hp
  simp only [List.mem_singleton] at hp
  subst hp
  exact ⟨Json.num 1, rfl, rfl⟩

/-- C9 (amended): `parseUserArgs` composed with per-key `stringify` is the
identity — read as maps — on user args whose key set is exactly the
schema's keys and whose every schema key holds a value of its declared
type.  For maps with keys beyond the schema the composite drops the extra
keys, as the counterexample shows. -/
theorem C9_parse_stringify_id (schema : List (String × W3FArgType))
    (args : JsObj)
    (h1 : ∀ p ∈ schema,
      ∃ j, objGet args p.1 = some j ∧ checkArgType p.2 j = true)
    (h2 : ∀ kv ∈ args, kv.1 ∈ schema.map Prod.fst) :
    ∃ out, parseUserArgs schema (stringifyArgs args) = .ok out
      ∧ ∀ k, objGet out k = objGet args k :=
  ⟨schema.map (fun p => (p.1, (objGet args p.1).getD .null)),
    parseUserArgs_stringify_ok schema args h1,
    parseUserArgs_lookup schema args h1 h2⟩

/-- C9 witness: the schema `{a: number}` with the well-typed map `{a: 1}`,
instantiating both hypotheses of `C9_parse_stringify_id`. -/
theorem C9_parse_stringify_id_witness :
    ∃ out, parseUserArgs [(("a" : String), W3FArgType.number)]
        (stringifyArgs [("a", Json.num 1)]) = .ok out
      ∧ ∀ k, objGet out k = objGet [(("a" : String), Json.num 1)] k :=
  C9_parse_stringify_id [("a", .number)] [("a", Json.num 1)]
    (by
      intro p hp
      simp only [List.mem_singleton] at hp
      subst hp
      exact ⟨Json.num 1, rfl, rfl⟩)
    (by
      intro kv hkv
      simp only [List.mem_singleton] at hkv
      subst hkv
      simp)

end W3F
